import Mathlib

/-!
Verification of the OrionX compliance-automation services against their
specification.  The development shallowly embeds the relevant Rust sources:

* `src/services/audit-trail/src/main.rs` — hash-chained audit log
  (`create_audit_entry`, `calculate_hash`, `verify_chain`);
* `src/services/workflow-orchestration/src/{service,state_machine,scheduler}.rs`
  — campaign workflow engine;
* `src/services/chemical-database/src/service.rs` — CAS validation;
* `src/shared/utils/src/bom/extractor.rs` — supplier extraction.

Modelling conventions.  Machine integers (`i32`) are embedded as `Int` and
sizes (`usize`) as `Nat`; none of the verified operations can overflow an
`i32`/`usize` on the inputs considered.  `Uuid` values are embedded as `Nat`
(the code only ever creates fresh ones and compares for equality);
freshness of `Uuid::new_v4` results is passed in explicitly.  `DateTime<Utc>`
instants are embedded as `Int` (the code only compares them and adds fixed
offsets).  `serde_json::Value` payloads enter the hash through their stable
string serialization, so they are embedded as `String`.  SHA-256 is embedded
as an abstract digest function `hf : HashInput H → H` over the exact field
sequence the Rust code feeds to the hasher; theorems that rely on
tamper-evidence assume `Function.Injective hf` (the ideal collision-free
reading of SHA-256), and concrete witnesses use the free digest `HashV`,
for which injectivity holds by construction.
-/

/-! ## String primitives

Rust string operations are embedded as character-list functions so that all
definitions evaluate by kernel reduction.  `str::to_lowercase` is embedded
as per-character ASCII lowering (every string these services lower-case is
ASCII), `str::split` as `split_on_char` (empty pieces preserved),
`str::parse::<u32>` as `parse_nat` (no overflow: the parsed check digits are
single digits), and `char::is_numeric` as an abstract `isNum : Char → Bool`
parameter with the concrete instance `rust_is_numeric` (see the CAS
section). -/

/-- Rust `str::to_lowercase`, restricted to ASCII. -/
def ascii_lower (s : String) : String := String.mk (s.data.map Char.toLower)

def split_on_char_aux (sep : Char) : List Char → List Char → List String
  | [], acc => [String.mk acc.reverse]
  | c :: rest, acc =>
      if c = sep then String.mk acc.reverse :: split_on_char_aux sep rest []
      else split_on_char_aux sep rest (c :: acc)

/-- Rust `str::split(sep)` collected into a vector. -/
def split_on_char (s : String) (sep : Char) : List String :=
  split_on_char_aux sep s.data []

/-- Rust `str::parse::<u32>`. -/
def parse_nat (s : String) : Option Nat :=
  match s.data with
  | [] => none
  | cs =>
      if cs.all Char.isDigit then
        some (cs.foldl (fun n c => 10 * n + (c.toNat - 48)) 0)
      else none

/-- Rust `str::ends_with`. -/
def ends_with (s suf : String) : Bool := suf.data.isSuffixOf s.data

/-- Rust truncation `s[..s.len() - n]` (only applied after a matching
`ends_with`, so the cut is on a character boundary). -/
def drop_right (s : String) (n : Nat) : String :=
  String.mk (s.data.take (s.data.length - n))

/-- Rust `str::split_whitespace` collected into a vector. -/
def split_whitespace (s : String) : List String :=
  ((s.data.splitOnP (fun c => c.isWhitespace)).filter
    (fun l => ¬ l.isEmpty)).map String.mk

/-! ## Audit trail service (src/services/audit-trail/src/main.rs) -/

/-- `AuditAction` enum of the audit-trail service. -/
inductive AuditAction where
  | create
  | read
  | update
  | delete
  | extract
  | validate
  | send
  | receive
  | escalate
  | approve
  | reject
deriving DecidableEq

/-- The sequence of fields `AuditService::calculate_hash` feeds to SHA-256:
id, RFC-3339 timestamp, Debug form of the action, entity type, entity id,
serialized details, and — when present — the previous hash. -/
structure HashInput (H : Type) where
  id : Nat
  timestamp : Int
  action : AuditAction
  entity_type : String
  entity_id : Nat
  details : String
  prev : Option H
deriving DecidableEq

/-- `AuditEntry` of the audit-trail service.  `user_id`, `agent_id` and
`source_document` do not participate in the hash; `source_document` is
dropped from the model (no claim mentions it). -/
structure AuditEntry (H : Type) where
  id : Nat
  timestamp : Int
  action : AuditAction
  entity_type : String
  entity_id : Nat
  user_id : Option Nat
  agent_id : Option String
  details : String
  hash : H
  previous_hash : Option H
deriving DecidableEq

/-- `CreateAuditRequest` of the audit-trail service. -/
structure CreateAuditRequest where
  action : String
  entity_type : String
  entity_id : Nat
  user_id : Option Nat
  agent_id : Option String
  details : String
deriving DecidableEq

/-- `AuditService::parse_action`: lower-cases the tag and falls back to
`Read` on unknown tags. -/
def parse_action (s : String) : AuditAction :=
  match ascii_lower s with
  | "create" => .create
  | "read" => .read
  | "update" => .update
  | "delete" => .delete
  | "extract" => .extract
  | "validate" => .validate
  | "send" => .send
  | "receive" => .receive
  | "escalate" => .escalate
  | "approve" => .approve
  | "reject" => .reject
  | _ => .read

/-- The `HashInput` that `AuditService::calculate_hash` assembles for an
entry together with an explicit previous hash. -/
def hashInputOf {H : Type} (e : AuditEntry H) (previous_hash : Option H) :
    HashInput H :=
  { id := e.id, timestamp := e.timestamp, action := e.action,
    entity_type := e.entity_type, entity_id := e.entity_id,
    details := e.details, prev := previous_hash }

/-- `AuditService::calculate_hash`, with SHA-256 abstracted to `hf`. -/
def calculate_hash {H : Type} (hf : HashInput H → H) (e : AuditEntry H)
    (previous_hash : Option H) : H :=
  hf (hashInputOf e previous_hash)

/-- Handler `create_audit_entry`: reads the tail hash, builds the entry with
a fresh id and the current time, computes its hash, and pushes it. -/
def create_audit_entry {H : Type} (hf : HashInput H → H)
    (entries : List (AuditEntry H)) (request : CreateAuditRequest)
    (fresh_id : Nat) (now : Int) : List (AuditEntry H) :=
  let previous_hash := (entries.getLast?).map AuditEntry.hash
  let inp : HashInput H :=
    { id := fresh_id, timestamp := now, action := parse_action request.action,
      entity_type := request.entity_type, entity_id := request.entity_id,
      details := request.details, prev := previous_hash }
  entries ++
    [{ id := fresh_id, timestamp := now, action := parse_action request.action,
       entity_type := request.entity_type, entity_id := request.entity_id,
       user_id := request.user_id, agent_id := request.agent_id,
       details := request.details, hash := hf inp,
       previous_hash := previous_hash }]

/-- A sequence of `create_audit_entry` calls, each supplying the request,
the fresh id, and the clock value of that call. -/
def append_all {H : Type} (hf : HashInput H → H)
    (entries : List (AuditEntry H)) :
    List (CreateAuditRequest × Nat × Int) → List (AuditEntry H)
  | [] => entries
  | (r, i, t) :: rest => append_all hf (create_audit_entry hf entries r i t) rest

/-- `VerifyChainResponse` of the audit-trail service (the two formatted
timestamp strings are carried as instants). -/
structure VerifyChainResponse where
  is_valid : Bool
  entries_verified : Nat
  first_entry : Option Int
  last_entry : Option Int
  broken_links : List Nat
deriving DecidableEq

/-- The verification loop of handler `verify_chain`: walk the in-range
entries, recomputing each expected hash from the scanning `previous_hash`
(initially `None`), collecting mismatching ids, and carrying each entry's
stored hash forward. -/
def verify_loop {H : Type} [DecidableEq H] (hf : HashInput H → H)
    (previous_hash : Option H) : List (AuditEntry H) → List Nat
  | [] => []
  | e :: rest =>
      let expected := calculate_hash hf e previous_hash
      (if e.hash = expected then [] else [e.id]) ++
        verify_loop hf (some e.hash) rest

/-- The range selection of handler `verify_chain`: the entries with
`fromT ≤ timestamp ≤ toT`, kept in storage (insertion) order. -/
def range_filter {H : Type} (entries : List (AuditEntry H))
    (fromT toT : Int) : List (AuditEntry H) :=
  entries.filter (fun e => fromT ≤ e.timestamp ∧ e.timestamp ≤ toT)

/-- Handler `verify_chain` (assembled response). -/
def verify_chain {H : Type} [DecidableEq H] (hf : HashInput H → H)
    (entries : List (AuditEntry H)) (fromT toT : Int) : VerifyChainResponse :=
  let range_entries := range_filter entries fromT toT
  let broken_links := verify_loop hf none range_entries
  { is_valid := broken_links.isEmpty,
    entries_verified := range_entries.length,
    first_entry := (range_entries.head?).map AuditEntry.timestamp,
    last_entry := (range_entries.getLast?).map AuditEntry.timestamp,
    broken_links := broken_links }

/-! ### Chain well-formedness -/

/-- A list of entries is a well-formed hash chain continuing from
`previous_hash`: each entry records the running previous hash and its own
hash is the digest of its fields together with that previous hash. -/
def chain_wf {H : Type} (hf : HashInput H → H) :
    Option H → List (AuditEntry H) → Prop
  | _, [] => True
  | prev, e :: rest =>
      e.previous_hash = prev ∧ e.hash = calculate_hash hf e prev ∧
        chain_wf hf (some e.hash) rest

/-- The hash of the last entry, or the running previous hash if none. -/
def last_hash {H : Type} (previous_hash : Option H) :
    List (AuditEntry H) → Option H
  | [] => previous_hash
  | e :: rest => last_hash (some e.hash) rest

/-- The free digest: a constructor copy of the exact field sequence hashed by
`AuditService::calculate_hash`, with the optional previous hash flattened
into two constructors.  It is the ideal collision-free SHA-256 used by
concrete witnesses (injectivity holds by construction). -/
inductive HashV where
  | root (id : Nat) (timestamp : Int) (action : AuditAction)
      (entity_type : String) (entity_id : Nat) (details : String)
  | link (id : Nat) (timestamp : Int) (action : AuditAction)
      (entity_type : String) (entity_id : Nat) (details : String) (prev : HashV)
deriving DecidableEq

/-- The free digest as a hash function on `HashInput`. -/
def hfree (i : HashInput HashV) : HashV :=
  match i.prev with
  | none => .root i.id i.timestamp i.action i.entity_type i.entity_id i.details
  | some p =>
      .link i.id i.timestamp i.action i.entity_type i.entity_id i.details p

/-- A dummy audit entry, used to read concrete positions out of concrete
logs in witness statements. -/
def dummyEntry : AuditEntry HashV :=
  { id := 0, timestamp := 0, action := .read, entity_type := "", entity_id := 0,
    user_id := none, agent_id := none,
    hash := .root 0 0 .read "" 0 "", details := "", previous_hash := none }

/-- Three audit append requests (request, fresh id, clock value) used by
concrete audit witnesses. -/
def c1_reqs : List (CreateAuditRequest × Nat × Int) :=
  [({ action := "create", entity_type := "chemical", entity_id := 4,
      user_id := none, agent_id := none, details := "d1" }, 0, 0),
   ({ action := "update", entity_type := "chemical", entity_id := 4,
      user_id := some 9, agent_id := none, details := "d2" }, 1, 1),
   ({ action := "delete", entity_type := "chemical", entity_id := 4,
      user_id := none, agent_id := some "agent", details := "d3" }, 2, 2)]

/-- An out-of-band mutation of a persisted entry: the stored `hash` and
`previous_hash` (and the fields outside the mutation set) are untouched,
and at least one of `details`, `entity_id`, `timestamp` differs. -/
def tampered_entry {H : Type} (x e' : AuditEntry H) : Prop :=
  e'.id = x.id ∧ e'.action = x.action ∧ e'.entity_type = x.entity_type ∧
    e'.user_id = x.user_id ∧ e'.agent_id = x.agent_id ∧
    e'.hash = x.hash ∧ e'.previous_hash = x.previous_hash ∧
    (e'.details ≠ x.details ∨ e'.entity_id ≠ x.entity_id ∨
      e'.timestamp ≠ x.timestamp)

instance {H : Type} [DecidableEq H] (x e' : AuditEntry H) :
    Decidable (tampered_entry x e') := by
  unfold tampered_entry
  infer_instance

/-- The concrete three-entry log built through the free digest. -/
def c2_log : List (AuditEntry HashV) := append_all hfree [] c1_reqs

/-- The last entry of `c2_log` with its `details` mutated out of band. -/
def c2_mutated : AuditEntry HashV :=
  { c2_log.getD 2 dummyEntry with details := "99" }

/-- `c2_log` after the out-of-band mutation of its last entry. -/
def c2_tampered : List (AuditEntry HashV) := c2_log.set 2 c2_mutated

/-! ## Workflow orchestration service
(src/services/workflow-orchestration/src/{state_machine,scheduler,service}.rs)

The service keeps three `HashMap<Uuid, _>` stores behind `RwLock`s.  They
are embedded as association lists in insertion order (iteration order of a
`HashMap` is unspecified; no verified property depends on it), and the
sequential semantics of each handler is modelled (the locks serialize the
handlers; see also the note on `complete_task` below).  `Utc::now()` and
`Uuid::new_v4()` results are passed in as explicit arguments. -/

/-- `WorkflowState` of the state machine module. -/
inductive WorkflowState where
  | Pending
  | Active
  | Paused
  | Completed
  | Cancelled
  | Failed
deriving DecidableEq

/-- `WorkflowState::can_transition_to` (the explicit terminal-state rows of
the Rust `match` are subsumed by the final catch-all, as in the source). -/
def WorkflowState.can_transition_to : WorkflowState → WorkflowState → Bool
  | .Pending, .Active => true
  | .Pending, .Cancelled => true
  | .Active, .Paused => true
  | .Active, .Completed => true
  | .Active, .Cancelled => true
  | .Active, .Failed => true
  | .Paused, .Active => true
  | .Paused, .Cancelled => true
  | _, _ => false

/-- `WorkflowState::from_str`. -/
def WorkflowState.from_str (s : String) : Option WorkflowState :=
  match ascii_lower s with
  | "pending" => some .Pending
  | "active" => some .Active
  | "paused" => some .Paused
  | "completed" => some .Completed
  | "cancelled" => some .Cancelled
  | "canceled" => some .Cancelled
  | "failed" => some .Failed
  | _ => none

/-- `WorkflowState::is_terminal`. -/
def WorkflowState.is_terminal : WorkflowState → Bool
  | .Completed => true
  | .Cancelled => true
  | .Failed => true
  | _ => false

/-- `TaskState` of the state machine module. -/
inductive TaskState where
  | Scheduled
  | Running
  | Completed
  | Failed
  | Exhausted
  | Skipped
  | Cancelled
deriving DecidableEq

/-- `TaskState::can_transition_to`. -/
def TaskState.can_transition_to : TaskState → TaskState → Bool
  | .Scheduled, .Running => true
  | .Scheduled, .Skipped => true
  | .Scheduled, .Cancelled => true
  | .Running, .Completed => true
  | .Running, .Failed => true
  | .Running, .Cancelled => true
  | .Failed, .Running => true
  | .Failed, .Exhausted => true
  | .Failed, .Cancelled => true
  | _, _ => false

/-- `TaskState::is_terminal`. -/
def TaskState.is_terminal : TaskState → Bool
  | .Completed => true
  | .Exhausted => true
  | .Skipped => true
  | .Cancelled => true
  | _ => false

/-- `TaskType` of the state machine module. -/
inductive TaskType where
  | InitialOutreach
  | DocumentProcessing
  | FollowUp
  | Validation
  | Escalation
deriving DecidableEq

/-- `WorkflowConfig` of the orchestration service. -/
structure WorkflowConfig where
  max_follow_ups : Int
  follow_up_interval_days : Int
  auto_escalate : Bool
  escalation_threshold_days : Int
deriving DecidableEq

/-- `WorkflowConfig::default`. -/
def WorkflowConfig.default : WorkflowConfig :=
  { max_follow_ups := 3, follow_up_interval_days := 7, auto_escalate := true,
    escalation_threshold_days := 21 }

/-- `WorkflowProgress` (the `f64` field `percent_complete` is embedded as
an exact rational; no verified property depends on rounding). -/
structure WorkflowProgress where
  total_suppliers : Nat
  contacted : Nat
  responded : Nat
  complete : Nat
  escalated : Nat
  percent_complete : Rat
deriving DecidableEq

/-- `StoredWorkflow` of the orchestration service. -/
structure StoredWorkflow where
  id : Nat
  client_id : Nat
  campaign_name : String
  suppliers : List Nat
  state : WorkflowState
  config : WorkflowConfig
  start_date : Int
  deadline : Int
  progress : WorkflowProgress
deriving DecidableEq

/-- `StoredTask` of the orchestration service (the opaque `result` JSON is
embedded as a string). -/
structure StoredTask where
  id : Nat
  workflow_id : Nat
  supplier_id : Nat
  task_type : TaskType
  state : TaskState
  retry_count : Int
  max_retries : Int
  scheduled_at : Option Int
  started_at : Option Int
  completed_at : Option Int
  error : Option String
  result : Option String
deriving DecidableEq

/-- `StoredEscalation` of the orchestration service. -/
structure StoredEscalation where
  id : Nat
  workflow_id : Nat
  supplier_id : Nat
  reason : String
  severity : String
  created_at : Int
  resolved : Bool
  resolved_at : Option Int
  resolution : Option String
deriving DecidableEq

/-- The three stores of `WorkflowService`, as association lists in
insertion order. -/
structure WorkflowService where
  workflows : List (Nat × StoredWorkflow)
  tasks : List (Nat × StoredTask)
  escalations : List (Nat × StoredEscalation)
deriving DecidableEq

/-- `HashMap::get`. -/
def mapGet {α : Type} (m : List (Nat × α)) (k : Nat) : Option α :=
  (m.find? (fun p => p.1 == k)).map Prod.snd

/-- `HashMap::insert` (replaces an existing binding, else appends). -/
def mapInsert {α : Type} (m : List (Nat × α)) (k : Nat) (v : α) :
    List (Nat × α) :=
  if (mapGet m k).isSome then
    m.map (fun p => if p.1 == k then (k, v) else p)
  else m ++ [(k, v)]

/-- Mutation through `HashMap::get_mut` (no-op on an absent key). -/
def mapUpdate {α : Type} (m : List (Nat × α)) (k : Nat) (f : α → α) :
    List (Nat × α) :=
  m.map (fun p => if p.1 == k then (p.1, f p.2) else p)

/-- `HashMap::values`. -/
def mapValues {α : Type} (m : List (Nat × α)) : List α := m.map Prod.snd

/-- `CreateWorkflowRequest`.  The RFC-3339 `deadline` string is embedded by
its parse result: `none` models a string `DateTime::parse_from_rfc3339`
rejects, `some d` a string parsing to instant `d`. -/
structure CreateWorkflowRequest where
  client_id : Nat
  campaign_name : String
  supplier_ids : List Nat
  deadline : Option Int
  config : Option WorkflowConfig
deriving DecidableEq

/-- `ScheduledTask` of the scheduler module. -/
structure ScheduledTask where
  id : Nat
  workflow_id : Nat
  supplier_id : Nat
  task_type : TaskType
  scheduled_at : Int
  priority : Int
deriving DecidableEq

/-- `WorkflowScheduler::schedule_initial_outreach`: one `InitialOutreach`
task per supplier, staggered by 2 minutes (instants count minutes), with
priority 100 and a fresh id per task (supplied as `task_ids`). -/
def schedule_initial_outreach (workflow_id : Nat) (supplier_ids : List Nat)
    (task_ids : List Nat) (now : Int) : List ScheduledTask :=
  (supplier_ids.zip task_ids).enum.map (fun p =>
    { id := p.2.2, workflow_id := workflow_id, supplier_id := p.2.1,
      task_type := .InitialOutreach, scheduled_at := now + 2 * (p.1 : Int),
      priority := 100 })

/-- `WorkflowService::create_workflow`: parse the deadline (the only
validation), build the workflow in state `Active`, store one `Scheduled`
task per supplier with `retry_count = 0` and `max_retries = 3`, store the
workflow, and return the supplier count as the task count. -/
def create_workflow (s : WorkflowService) (request : CreateWorkflowRequest)
    (workflow_id : Nat) (task_ids : List Nat) (now : Int) :
    Except String (WorkflowService × Nat) :=
  match request.deadline with
  | none => .error "Invalid deadline format"
  | some deadline =>
      let config := request.config.getD WorkflowConfig.default
      let workflow : StoredWorkflow :=
        { id := workflow_id, client_id := request.client_id,
          campaign_name := request.campaign_name,
          suppliers := request.supplier_ids, state := .Active,
          config := config, start_date := now, deadline := deadline,
          progress := { total_suppliers := request.supplier_ids.length,
                        contacted := 0, responded := 0, complete := 0,
                        escalated := 0, percent_complete := 0 } }
      let scheduled :=
        schedule_initial_outreach workflow_id request.supplier_ids task_ids now
      let tasks1 := scheduled.foldl (fun m st =>
        mapInsert m st.id
          { id := st.id, workflow_id := st.workflow_id,
            supplier_id := st.supplier_id, task_type := st.task_type,
            state := .Scheduled, retry_count := 0, max_retries := 3,
            scheduled_at := some st.scheduled_at, started_at := none,
            completed_at := none, error := none, result := none }) s.tasks
      let workflows1 := mapInsert s.workflows workflow_id workflow
      .ok ({ s with tasks := tasks1, workflows := workflows1 },
        request.supplier_ids.length)

/-- `WorkflowService::update_status`: parse the tag, look the workflow up,
check `can_transition_to`, and store the new state.  Only the stored state
of the returned `WorkflowResponse` is modelled. -/
def update_status (s : WorkflowService) (id : Nat) (status : String) :
    Except String (WorkflowService × WorkflowState) :=
  match WorkflowState.from_str status with
  | none => .error "Invalid status"
  | some new_state =>
      match mapGet s.workflows id with
      | none => .error "Workflow not found"
      | some w =>
          if w.state.can_transition_to new_state then
            .ok ({ s with workflows :=
                    mapUpdate s.workflows id (fun w1 => { w1 with state := new_state }) },
              new_state)
          else .error "Invalid state transition"

/-- `WorkflowService::cancel_workflow`. -/
def cancel_workflow (s : WorkflowService) (id : Nat) :
    Except String (WorkflowService × WorkflowState) :=
  update_status s id "cancelled"

/-- `WorkflowService::update_workflow_progress`: recompute the completed
count over the campaign's tasks, store it with the percentage, and — when
every task is completed and at least one exists — write state `Completed`
directly (no `can_transition_to` check).  Its sole call site is
`complete_task`, which still holds the write guard of the tasks `RwLock`
when it awaits this function's first statement, `tasks.read().await`; a
tokio `RwLock` is not reentrant, so that await never resolves and this
body is unreachable in the program.  The definition embeds the body as
written; no reachable-behavior theorem uses it. -/
def update_workflow_progress (s : WorkflowService) (workflow_id : Nat) :
    WorkflowService :=
  let workflow_tasks :=
    (mapValues s.tasks).filter (fun t => t.workflow_id == workflow_id)
  let total := workflow_tasks.length
  let completed :=
    (workflow_tasks.filter (fun t => t.state == TaskState.Completed)).length
  { s with workflows := mapUpdate s.workflows workflow_id (fun w =>
      let pct : Rat :=
        if 0 < total then (completed : Rat) / (total : Rat) * 100 else 0
      let progress1 :=
        { w.progress with complete := completed, percent_complete := pct }
      let w1 := { w with progress := progress1 }
      if completed == total && 0 < total then { w1 with state := .Completed }
      else w1) }

/-- The observable outcomes of `WorkflowService::complete_task`: either
the task lookup fails and the handler returns `Task not found`, or the
handler mutates the task and then blocks forever. -/
inductive TaskCompletionOutcome where
  | notFound
  | deadlocked (stuck : WorkflowService)
deriving DecidableEq

/-- `WorkflowService::complete_task`: under the tasks write guard, set the
task to `Completed` (recording `completed_at` and the result), then call
`update_workflow_progress` — whose first statement,
`self.tasks.read().await`, waits on the write guard this handler still
holds.  The tokio `RwLock` is not reentrant, so the call never returns:
no response is produced and the workflows store is never touched.  The
model returns the store contents at the permanently blocked await
(`deadlocked`): the task mutation is visible, everything else is as it
was. -/
def complete_task (s : WorkflowService) (task_id : Nat)
    (result : Option String) (now : Int) : TaskCompletionOutcome :=
  match mapGet s.tasks task_id with
  | none => .notFound
  | some t =>
      let t1 :=
        { t with state := .Completed, completed_at := some now,
                 result := result }
      .deadlocked { s with tasks := mapUpdate s.tasks task_id (fun _ => t1) }

/-- `WorkflowService::create_escalation`. -/
def create_escalation (s : WorkflowService) (workflow_id supplier_id : Nat)
    (reason severity : String) (fresh_id : Nat) (now : Int) :
    WorkflowService :=
  let escalation : StoredEscalation :=
    { id := fresh_id, workflow_id := workflow_id,
      supplier_id := supplier_id, reason := reason, severity := severity,
      created_at := now, resolved := false, resolved_at := none,
      resolution := none }
  { s with escalations := mapInsert s.escalations fresh_id escalation }

/-- `WorkflowService::retry_task`: no state precondition — if
`retry_count ≥ max_retries`, set `Exhausted` and create the high-severity
escalation; otherwise increment `retry_count`, set `Scheduled`, refresh
`scheduled_at`, and clear the error. -/
def retry_task (s : WorkflowService) (task_id : Nat) (esc_id : Nat)
    (now : Int) : Except String (WorkflowService × StoredTask) :=
  match mapGet s.tasks task_id with
  | none => .error "Task not found"
  | some t =>
      if t.max_retries ≤ t.retry_count then
        let t1 := { t with state := .Exhausted }
        let s1 := { s with tasks := mapUpdate s.tasks task_id (fun _ => t1) }
        .ok (create_escalation s1 t.workflow_id t.supplier_id
          "Max retries exceeded" "high" esc_id now, t1)
      else
        let t1 :=
          { t with retry_count := t.retry_count + 1, state := .Scheduled,
                   scheduled_at := some now, error := none }
        .ok ({ s with tasks := mapUpdate s.tasks task_id (fun _ => t1) }, t1)

/-- Modelled from the spec: no code under src/ sets a task to `Failed` —
per the specification's failure-reporting contract, an external executor
failure sets `last_error` on the task and drives it to `Failed`. -/
def fail_task (s : WorkflowService) (task_id : Nat) (err : String) :
    WorkflowService :=
  { s with tasks := mapUpdate s.tasks task_id (fun t =>
      { t with state := .Failed, error := some err }) }

/-- One failure-then-retry cycle on a task: an executor failure followed by
a `retry_task` call (the service state is unchanged by a failed lookup). -/
def fail_retry_cycle (s : WorkflowService) (task_id esc_id : Nat)
    (now : Int) : WorkflowService :=
  let s1 := fail_task s task_id "task failed"
  match retry_task s1 task_id esc_id now with
  | .ok (s2, _) => s2
  | .error _ => s1

/-- Consecutive failure-then-retry cycles, one per escalation id supplied. -/
def fail_retry_cycles (s : WorkflowService) (task_id : Nat) (now : Int) :
    List Nat → WorkflowService
  | [] => s
  | esc_id :: rest =>
      fail_retry_cycles (fail_retry_cycle s task_id esc_id now) task_id now rest

/-- The escalations recorded for a campaign and supplier with severity
`high` and reason `Max retries exceeded`. -/
def esc_count (s : WorkflowService) (workflow_id supplier_id : Nat) : Nat :=
  ((mapValues s.escalations).filter (fun e =>
    e.workflow_id == workflow_id && e.supplier_id == supplier_id &&
    e.severity == "high" && e.reason == "Max retries exceeded")).length

/-- Extract the resulting service of a workflow operation (the default is
never used in the concrete scenarios below, whose calls all succeed, as the
accompanying theorems check). -/
def exceptStateD {β : Type} (e : Except String (WorkflowService × β))
    (d : WorkflowService) : WorkflowService :=
  match e with
  | .ok p => p.1
  | .error _ => d

/-- The empty workflow service. -/
def svc0 : WorkflowService := { workflows := [], tasks := [], escalations := [] }

/-- A creation request with one supplier and a parseable future deadline. -/
def c3_req : CreateWorkflowRequest :=
  { client_id := 7, campaign_name := "pfas-2026", supplier_ids := [5],
    deadline := some 100, config := none }

/-- The service after creating the one-supplier campaign (workflow id 1,
task id 10, at time 0). -/
def c3_s1 : WorkflowService := exceptStateD (create_workflow svc0 c3_req 1 [10] 0) svc0

/-- The service after cancelling campaign 1. -/
def c3_s2 : WorkflowService := exceptStateD (cancel_workflow c3_s1 1) c3_s1

/-- A stored workflow already in the terminal state `Cancelled`. -/
def c3_term_wf : StoredWorkflow :=
  { id := 1, client_id := 7, campaign_name := "pfas-2026", suppliers := [5],
    state := .Cancelled, config := WorkflowConfig.default, start_date := 0,
    deadline := 100,
    progress := { total_suppliers := 1, contacted := 0, responded := 0,
                  complete := 0, escalated := 0, percent_complete := 0 } }

/-- The single task of the cancelled campaign. -/
def c3_term_task : StoredTask :=
  { id := 10, workflow_id := 1, supplier_id := 5,
    task_type := .InitialOutreach, state := .Scheduled, retry_count := 0,
    max_retries := 3, scheduled_at := some 0, started_at := none,
    completed_at := none, error := none, result := none }

/-- A service holding the cancelled campaign and its task. -/
def c3_term_svc : WorkflowService :=
  { workflows := [(1, c3_term_wf)], tasks := [(10, c3_term_task)],
    escalations := [] }

/-- A dummy stored workflow, used to read concrete lookups in witness
statements. -/
def dummyWorkflow : StoredWorkflow :=
  { id := 0, client_id := 0, campaign_name := "", suppliers := [],
    state := .Pending, config := WorkflowConfig.default, start_date := 0,
    deadline := 0,
    progress := { total_suppliers := 0, contacted := 0, responded := 0,
                  complete := 0, escalated := 0, percent_complete := 0 } }

/-- A creation request violating every claimed validation: the deadline
parses to an instant in the past and the supplier list is empty. -/
def c5_req : CreateWorkflowRequest :=
  { client_id := 7, campaign_name := "late", supplier_ids := [],
    deadline := some (-5), config := none }

/-- A previously completed task. -/
def c7_task : StoredTask :=
  { id := 10, workflow_id := 1, supplier_id := 5,
    task_type := .InitialOutreach, state := .Completed, retry_count := 0,
    max_retries := 3, scheduled_at := some 0, started_at := some 1,
    completed_at := some 2, error := none, result := none }

/-- A service holding only the completed task. -/
def c7_svc : WorkflowService :=
  { workflows := [], tasks := [(10, c7_task)], escalations := [] }

/-- A freshly scheduled task for the retry-exhaustion scenario
(`max_retries = 2` to keep the witness computation small). -/
def c6_task : StoredTask :=
  { id := 10, workflow_id := 1, supplier_id := 5,
    task_type := .InitialOutreach, state := .Scheduled, retry_count := 0,
    max_retries := 2, scheduled_at := some 0, started_at := none,
    completed_at := none, error := none, result := none }

/-- A service holding only the fresh task. -/
def c6_svc : WorkflowService :=
  { workflows := [], tasks := [(10, c6_task)], escalations := [] }

/-! ## CAS validation (src/services/chemical-database/src/service.rs) -/

/-- `CasValidation` of the chemical-database service. -/
structure CasValidation where
  is_valid : Bool
  format_valid : Bool
  checksum_valid : Bool
  normalized : String
  errors : List String
deriving DecidableEq

/-- The UTF-8 byte width of a Unicode scalar value; Rust `str::len`
(used by the segment length checks) sums these per character. -/
def char_utf8_len (c : Char) : Nat :=
  if c.toNat < 0x80 then 1
  else if c.toNat < 0x800 then 2
  else if c.toNat < 0x10000 then 3
  else 4

/-- Rust `str::len`: the UTF-8 byte length of a string. -/
def str_bytes (s : String) : Nat := (s.data.map char_utf8_len).sum

/-- Rust `char::is_numeric` is the Unicode `Number` property, whose full
table is outside the model; the CAS functions are therefore parametrized
over an `isNum : Char → Bool` standing for it.  This concrete instance is
exact on every character the verified statements evaluate it at: on ASCII
(where the numeric characters are exactly the digits 0–9) and on the
Arabic-Indic digit block U+0660–U+0669 (class Nd: numeric, but not ASCII
digits and not accepted by `to_digit(10)`). -/
def rust_is_numeric (c : Char) : Bool :=
  c.isDigit || (decide (0x660 ≤ c.toNat) && decide (c.toNat ≤ 0x669))

/-- Every character of the string is ASCII. -/
def all_ascii (s : String) : Bool :=
  s.data.all (fun c => decide (c.toNat < 128))

/-- `ChemicalService::normalize_cas`: keep only numeric characters
(`char::is_numeric`, abstracted as `isNum`) and dashes. -/
def normalize_cas (isNum : Char → Bool) (cas : String) : String :=
  String.mk (cas.data.filter (fun c => isNum c || c = '-'))

/-- `ChemicalService::verify_cas_checksum`: concatenate the first two
groups, weight each character's decimal value by its position counted
from the right starting at 1 (the enumeration index counts every
character; `to_digit(10)` — ASCII-only, embedded as `Char.isDigit` — skips
the rest in the filter-map), and compare the sum modulo 10 with the
parsed third group. -/
def verify_cas_checksum (cas : String) : Bool :=
  match split_on_char cas '-' with
  | [p1, p2, p3] =>
      match parse_nat p3 with
      | none => false
      | some check_digit =>
          let digits := p1 ++ p2
          let sum := ((digits.data.reverse.enum).filterMap (fun p =>
            if p.2.isDigit then some ((p.2.toNat - 48) * (p.1 + 1))
            else none)).sum
          sum % 10 == check_digit
  | _ => false

/-- First-segment check of `validate_cas`: 2–7 bytes, all characters
numeric. -/
def seg1_valid (isNum : Char → Bool) (g : String) : Bool :=
  decide (2 ≤ str_bytes g) && decide (str_bytes g ≤ 7) && g.data.all isNum

/-- Second-segment check of `validate_cas`: exactly 2 bytes, all
numeric. -/
def seg2_valid (isNum : Char → Bool) (g : String) : Bool :=
  (str_bytes g == 2) && g.data.all isNum

/-- Third-segment check of `validate_cas`: exactly 1 byte, numeric. -/
def seg3_valid (isNum : Char → Bool) (g : String) : Bool :=
  (str_bytes g == 1) && g.data.all isNum

/-- The combined format check of `validate_cas`. -/
def cas_format_valid (isNum : Char → Bool) (g1 g2 g3 : String) : Bool :=
  seg1_valid isNum g1 && seg2_valid isNum g2 && seg3_valid isNum g3

/-- The error list `validate_cas` accumulates. -/
def cas_errors (isNum : Char → Bool) (g1 g2 g3 : String)
    (format_valid checksum_valid : Bool) : List String :=
  (if seg1_valid isNum g1 then []
   else ["First segment should be 2-7 digits"]) ++
  (if seg2_valid isNum g2 then []
   else ["Second segment should be 2 digits"]) ++
  (if seg3_valid isNum g3 then []
   else ["Third segment should be 1 digit (check digit)"]) ++
  (if format_valid && !checksum_valid then
    ["Check digit verification failed"]
   else [])

/-- `ChemicalService::validate_cas` (parametrized by the embedding of
`char::is_numeric`). -/
def validate_cas (isNum : Char → Bool) (cas_number : String) :
    CasValidation :=
  match split_on_char (normalize_cas isNum cas_number) '-' with
  | [g1, g2, g3] =>
      let format_valid := cas_format_valid isNum g1 g2 g3
      let checksum_valid :=
        if format_valid then
          verify_cas_checksum (normalize_cas isNum cas_number)
        else false
      { is_valid := format_valid && checksum_valid,
        format_valid := format_valid, checksum_valid := checksum_valid,
        normalized := normalize_cas isNum cas_number,
        errors := cas_errors isNum g1 g2 g3 format_valid checksum_valid }
  | _ =>
      { is_valid := false, format_valid := false, checksum_valid := false,
        normalized := normalize_cas isNum cas_number,
        errors := ["Invalid format: expected XXX-XX-X"] }

/-- The numeric value of an ASCII digit (spec-side notation). -/
def spec_digit_val (c : Char) : Nat := c.toNat - 48

/-- Modelled from the spec (§4.4 Checksum): the digits of the first two
groups, most significant first, weighted by position counted from the
right starting at 1. -/
def spec_weighted_sum (g : String) : Nat :=
  ((g.data.reverse.enum).map (fun p => (p.1 + 1) * spec_digit_val p.2)).sum

/-- Modelled from the spec (§4.4): the input normalized per the spec
(strip characters outside `[0-9\x2d]`) consists of three dash-separated
all-digit groups of sizes 2–7, 2, and 1, and the weighted digit sum of
the first two groups is congruent mod 10 to the check digit. -/
def cas_spec_valid (s : String) : Prop :=
  ∃ g1 g2 g3 : String,
    split_on_char (normalize_cas Char.isDigit s) '-' = [g1, g2, g3] ∧
    2 ≤ g1.length ∧ g1.length ≤ 7 ∧ g1.data.all Char.isDigit = true ∧
    g2.length = 2 ∧ g2.data.all Char.isDigit = true ∧
    g3.length = 1 ∧ g3.data.all Char.isDigit = true ∧
    spec_weighted_sum (g1 ++ g2) % 10 = spec_digit_val (g3.data.headD '0')

/-! ## Supplier extraction (src/shared/utils/src/bom/extractor.rs) -/

/-- `BomRow` of the BOM parser (the raw-cell map is dropped: the extractor
never reads it). -/
structure BomRow where
  row_number : Nat
  supplier_name : Option String
  supplier_email : Option String
  contact_person : Option String
  part_number : Option String
  description : Option String
  material_type : Option String
  cas_numbers : List String
deriving DecidableEq

/-- `ExtractedComponent` of the supplier extractor. -/
structure ExtractedComponent where
  part_number : String
  description : Option String
  material_type : Option String
  cas_numbers : List String
  source_row : Nat
deriving DecidableEq

/-- `ExtractedSupplier` of the supplier extractor. -/
structure ExtractedSupplier where
  id : Nat
  name : String
  email : Option String
  contact_person : Option String
  components : List ExtractedComponent
  source_rows : List Nat
  is_complete : Bool
  missing_fields : List String
deriving DecidableEq

/-- `ExtractionResult` of the supplier extractor. -/
structure ExtractionResult where
  suppliers : List ExtractedSupplier
  complete_count : Nat
  incomplete_count : Nat
  duplicate_count : Nat
  warnings : List String
deriving DecidableEq

/-- `SupplierExtractor` configuration. -/
structure SupplierExtractor where
  require_email : Bool
  require_contact : Bool
deriving DecidableEq

/-- `SupplierExtractor::default`: email required, contact person not. -/
def SupplierExtractor.default : SupplierExtractor :=
  { require_email := true, require_contact := false }

/-- The corporate suffixes stripped by name normalization, in source
order. -/
def company_suffixes : List String :=
  [" inc", " inc.", " llc", " ltd", " ltd.", " corp", " corp.", " co", " co."]

/-- `SupplierExtractor::normalize_supplier_name`: lower-case, strip each
matching suffix once in list order, and collapse whitespace. -/
def normalize_supplier_name (name : String) : String :=
  let lowered := ascii_lower name
  let stripped := company_suffixes.foldl (fun acc suf =>
    if ends_with acc suf then drop_right acc suf.length else acc) lowered
  String.intercalate " " (split_whitespace stripped)

/-- `SupplierExtractor::extract_component`: `None` without a part
number. -/
def extract_component (row : BomRow) : Option ExtractedComponent :=
  row.part_number.map (fun pn =>
    { part_number := pn, description := row.description,
      material_type := row.material_type, cas_numbers := row.cas_numbers,
      source_row := row.row_number })

/-- The missing-field list `extract` computes when a supplier is first
created from a row. -/
def missing_fields_of (cfg : SupplierExtractor) (row : BomRow) :
    List String :=
  (if cfg.require_email && row.supplier_email.isNone then ["email"]
   else []) ++
  (if cfg.require_contact && row.contact_person.isNone then
    ["contact_person"]
   else [])

/-- The accumulator of the extraction loop. -/
structure ExtractState where
  supplier_map : List (String × ExtractedSupplier)
  warnings : List String
  duplicate_count : Nat
deriving DecidableEq

/-- `HashMap::get` on the string-keyed supplier map. -/
def smapGet (m : List (String × ExtractedSupplier)) (k : String) :
    Option ExtractedSupplier :=
  (m.find? (fun p => p.1 == k)).map Prod.snd

/-- Mutation through `HashMap::get_mut` on the supplier map. -/
def smapUpdate (m : List (String × ExtractedSupplier)) (k : String)
    (v : ExtractedSupplier) : List (String × ExtractedSupplier) :=
  m.map (fun p => if p.1 == k then (p.1, v) else p)

/-- One iteration of `SupplierExtractor::extract`: skip (with a warning)
rows without a non-empty supplier name; merge into an existing supplier
under the normalized name (appending the component and the row number,
filling email and contact only if currently empty, and counting the
duplicate); otherwise create the supplier, computing `is_complete` and
`missing_fields` from this row alone.  `Uuid::new_v4` for the new supplier
is modelled by the creating row's number (identity is never inspected). -/
def extract_step (cfg : SupplierExtractor) (st : ExtractState)
    (row : BomRow) : ExtractState :=
  match row.supplier_name with
  | some name =>
      if name.data.isEmpty then
        { st with warnings := st.warnings ++
            ["Row " ++ toString row.row_number ++
              ": Missing supplier name, skipped"] }
      else
        let normalized_name := normalize_supplier_name name
        let component := extract_component row
        match smapGet st.supplier_map normalized_name with
        | some existing =>
            let merged :=
              { existing with
                source_rows := existing.source_rows ++ [row.row_number],
                components := existing.components ++ component.toList,
                email :=
                  if existing.email.isNone && row.supplier_email.isSome then
                    row.supplier_email
                  else existing.email,
                contact_person :=
                  if existing.contact_person.isNone &&
                      row.contact_person.isSome then
                    row.contact_person
                  else existing.contact_person }
            { st with duplicate_count := st.duplicate_count + 1,
                      supplier_map :=
                        smapUpdate st.supplier_map normalized_name merged }
        | none =>
            let missing := missing_fields_of cfg row
            let supplier : ExtractedSupplier :=
              { id := row.row_number, name := name,
                email := row.supplier_email,
                contact_person := row.contact_person,
                components := component.toList,
                source_rows := [row.row_number],
                is_complete := missing.isEmpty, missing_fields := missing }
            { st with supplier_map :=
                st.supplier_map ++ [(normalized_name, supplier)] }
  | none =>
      { st with warnings := st.warnings ++
          ["Row " ++ toString row.row_number ++
            ": Missing supplier name, skipped"] }

/-- `SupplierExtractor::extract` over the parsed rows (supplier order is
the map's insertion order; a Rust `HashMap` iterates in unspecified order,
and no verified property depends on it). -/
def extract (cfg : SupplierExtractor) (rows : List BomRow) :
    ExtractionResult :=
  let st := rows.foldl (extract_step cfg) ⟨[], [], 0⟩
  let suppliers := st.supplier_map.map Prod.snd
  let complete_count := (suppliers.filter (fun sup => sup.is_complete)).length
  { suppliers := suppliers, complete_count := complete_count,
    incomplete_count := suppliers.length - complete_count,
    duplicate_count := st.duplicate_count, warnings := st.warnings }

/-- A row naming a supplier without an email address. -/
def c9_row2 : BomRow :=
  { row_number := 2, supplier_name := some "Acme", supplier_email := none,
    contact_person := none, part_number := some "PN-1", description := none,
    material_type := none, cas_numbers := [] }

/-- A later row for the same supplier (different casing) that carries the
email address. -/
def c9_row3 : BomRow :=
  { row_number := 3, supplier_name := some "ACME",
    supplier_email := some "acme@example.com", contact_person := none,
    part_number := some "PN-2", description := none, material_type := none,
    cas_numbers := [] }

/-- A dummy extracted supplier, used to read concrete extraction results
in witness statements. -/
def dummySupplier : ExtractedSupplier :=
  { id := 0, name := "", email := none, contact_person := none,
    components := [], source_rows := [], is_complete := false,
    missing_fields := [] }

/-! ## Theorems -/

theorem hfree_injective : Function.Injective hfree := by
  rintro ⟨i1, t1, a1, y1, e1, d1, p1⟩ ⟨i2, t2, a2, y2, e2, d2, p2⟩ h
  cases p1 <;> cases p2 <;> simp_all [hfree]

theorem last_hash_eq {H : Type} (l : List (AuditEntry H))
    (previous_hash : Option H) :
    last_hash previous_hash l =
      match l.getLast? with
      | none => previous_hash
      | some e => some e.hash := by
  induction l generalizing previous_hash with
  | nil => rfl
  | cons x xs ih =>
      cases xs with
      | nil => simp [last_hash, ih]
      | cons y ys =>
          simpa [last_hash, List.getLast?_cons_cons] using ih (some x.hash)

theorem chain_wf_snoc {H : Type} (hf : HashInput H → H)
    (l : List (AuditEntry H)) (prev : Option H) (e : AuditEntry H)
    (hwf : chain_wf hf prev l)
    (hprev : e.previous_hash = last_hash prev l)
    (hhash : e.hash = calculate_hash hf e e.previous_hash) :
    chain_wf hf prev (l ++ [e]) := by
  induction l generalizing prev with
  | nil =>
      simp only [last_hash] at hprev
      exact ⟨hprev, hprev ▸ hhash, trivial⟩
  | cons x xs ih =>
      obtain ⟨h1, h2, h3⟩ := hwf
      exact ⟨h1, h2, ih (some x.hash) h3 hprev⟩

theorem append_all_wf {H : Type} (hf : HashInput H → H)
    (reqs : List (CreateAuditRequest × Nat × Int))
    (entries : List (AuditEntry H)) (hwf : chain_wf hf none entries) :
    chain_wf hf none (append_all hf entries reqs) := by
  induction reqs generalizing entries with
  | nil => exact hwf
  | cons r rest ih =>
      obtain ⟨req, i, t⟩ := r
      refine ih _ ?_
      refine chain_wf_snoc hf entries none _ hwf ?_ rfl
      rw [last_hash_eq]
      cases h : entries.getLast? <;> simp [create_audit_entry, h]

theorem append_all_length {H : Type} (hf : HashInput H → H)
    (reqs : List (CreateAuditRequest × Nat × Int))
    (entries : List (AuditEntry H)) :
    (append_all hf entries reqs).length = entries.length + reqs.length := by
  induction reqs generalizing entries with
  | nil => simp [append_all]
  | cons r rest ih =>
      obtain ⟨req, i, t⟩ := r
      simp [append_all, ih, create_audit_entry]
      omega

theorem chain_wf_verify_loop {H : Type} [DecidableEq H]
    (hf : HashInput H → H) (l : List (AuditEntry H)) (prev : Option H)
    (hwf : chain_wf hf prev l) : verify_loop hf prev l = [] := by
  induction l generalizing prev with
  | nil => rfl
  | cons x xs ih =>
      obtain ⟨_, h2, h3⟩ := hwf
      simp only [verify_loop]
      rw [if_pos h2]
      simpa using ih _ h3

theorem chain_wf_head_prev {H : Type} (hf : HashInput H → H)
    (l : List (AuditEntry H)) (prev : Option H) (e : AuditEntry H)
    (hwf : chain_wf hf prev l) (hh : l.head? = some e) :
    e.previous_hash = prev := by
  cases l with
  | nil => simp at hh
  | cons x xs =>
      simp only [List.head?_cons, Option.some_inj] at hh
      exact hh ▸ hwf.1

theorem chain_wf_get_succ {H : Type} (hf : HashInput H → H)
    (l : List (AuditEntry H)) (prev : Option H) (hwf : chain_wf hf prev l)
    (i : Nat) (ei ei1 : AuditEntry H) (hi : l[i]? = some ei)
    (hi1 : l[i + 1]? = some ei1) : ei1.previous_hash = some ei.hash := by
  induction l generalizing prev i with
  | nil => simp at hi
  | cons x xs ih =>
      obtain ⟨h1, h2, h3⟩ := hwf
      cases i with
      | zero =>
          simp only [List.getElem?_cons_zero, Option.some_inj] at hi
          have : ei1.previous_hash = some x.hash :=
            chain_wf_head_prev hf xs (some x.hash) ei1 h3 (by
              cases xs with
              | nil => simp at hi1
              | cons y ys =>
                  simpa using hi1)
          rw [this, hi]
      | succ j =>
          exact ih _ h3 j (by simpa using hi) (by simpa using hi1)

theorem chain_wf_hash_of_mem {H : Type} (hf : HashInput H → H)
    (l : List (AuditEntry H)) (prev : Option H) (e : AuditEntry H)
    (hwf : chain_wf hf prev l) (he : e ∈ l) :
    e.hash = calculate_hash hf e e.previous_hash := by
  induction l generalizing prev with
  | nil => simp at he
  | cons x xs ih =>
      obtain ⟨h1, h2, h3⟩ := hwf
      rcases List.mem_cons.mp he with rfl | hmem
      · rw [h1]
        exact h2
      · exact ih _ h3 hmem

theorem chain_wf_mem_prev_some {H : Type} (hf : HashInput H → H)
    (l : List (AuditEntry H)) (h0 : H) (e : AuditEntry H)
    (hwf : chain_wf hf (some h0) l) (he : e ∈ l) :
    ∃ h1, e.previous_hash = some h1 := by
  induction l generalizing h0 with
  | nil => simp at he
  | cons x xs ih =>
      obtain ⟨h1, _, h3⟩ := hwf
      rcases List.mem_cons.mp he with rfl | hmem
      · exact ⟨h0, h1⟩
      · exact ih _ h3 hmem

theorem chain_wf_prev_none_head {H : Type} (hf : HashInput H → H)
    (l : List (AuditEntry H)) (e : AuditEntry H)
    (hwf : chain_wf hf none l) (he : e ∈ l) (hp : e.previous_hash = none) :
    l.head? = some e := by
  cases l with
  | nil => simp at he
  | cons x xs =>
      rcases List.mem_cons.mp he with rfl | hmem
      · rfl
      · obtain ⟨_, _, h3⟩ := hwf
        obtain ⟨h1, hh1⟩ := chain_wf_mem_prev_some hf xs x.hash e h3 hmem
        rw [hp] at hh1
        exact absurd hh1 (by simp)

/-- Claim C1: after any sequence of n appends to an initially empty audit
log, the first entry's previous_hash is null, every later entry's
previous_hash equals the immediately preceding entry's hash, and verifying
a time range that contains all n entries returns broken_links = [],
is_valid = true, and entries_verified = n. -/
theorem c1_audit_append_chain {H : Type} [DecidableEq H]
    (hf : HashInput H → H) (reqs : List (CreateAuditRequest × Nat × Int))
    (fromT toT : Int)
    (hrange : ∀ e ∈ append_all hf [] reqs,
      fromT ≤ e.timestamp ∧ e.timestamp ≤ toT) :
    (∀ e0, (append_all hf [] reqs)[0]? = some e0 →
      e0.previous_hash = none) ∧
    (∀ i ei ei1, (append_all hf [] reqs)[i]? = some ei →
      (append_all hf [] reqs)[i + 1]? = some ei1 →
      ei1.previous_hash = some ei.hash) ∧
    (verify_chain hf (append_all hf [] reqs) fromT toT).broken_links = [] ∧
    (verify_chain hf (append_all hf [] reqs) fromT toT).is_valid = true ∧
    (verify_chain hf (append_all hf [] reqs) fromT toT).entries_verified =
      reqs.length := by
  have hwf : chain_wf hf none (append_all hf [] reqs) :=
    append_all_wf hf reqs [] trivial
  have hfilter :
      range_filter (append_all hf [] reqs) fromT toT =
        append_all hf [] reqs := by
    rw [range_filter, List.filter_eq_self]
    simpa using hrange
  have hbroken :
      (verify_chain hf (append_all hf [] reqs) fromT toT).broken_links = [] := by
    simp only [verify_chain, hfilter]
    exact chain_wf_verify_loop hf _ none hwf
  refine ⟨?_, ?_, hbroken, ?_, ?_⟩
  · intro e0 h0
    exact chain_wf_head_prev hf _ none e0 hwf
      (by rwa [List.head?_eq_getElem?])
  · intro i ei ei1 hi hi1
    exact chain_wf_get_succ hf _ none hwf i ei ei1 hi hi1
  · have hproj :
        (verify_chain hf (append_all hf [] reqs) fromT toT).is_valid =
          ((verify_chain hf (append_all hf [] reqs) fromT toT).broken_links).isEmpty :=
      rfl
    rw [hproj, hbroken]
    rfl
  · simp only [verify_chain, hfilter]
    simpa using append_all_length hf reqs []

/-- Witness for C1 at three concrete appends through the free digest. -/
theorem c1_audit_append_chain_witness :
    (∀ e ∈ append_all hfree [] c1_reqs,
      (0 : Int) ≤ e.timestamp ∧ e.timestamp ≤ 9) ∧
    (verify_chain hfree (append_all hfree [] c1_reqs) 0 9).broken_links = [] ∧
    (verify_chain hfree (append_all hfree [] c1_reqs) 0 9).is_valid = true ∧
    (verify_chain hfree (append_all hfree [] c1_reqs) 0 9).entries_verified =
      c1_reqs.length :=
  ⟨by decide, (c1_audit_append_chain hfree c1_reqs 0 9 (by decide)).2.2⟩

theorem filter_eq_takeWhile_sorted {H : Type} (l : List (AuditEntry H))
    (fromT toT : Int) (hlb : ∀ x ∈ l, fromT ≤ x.timestamp)
    (hsorted : l.Pairwise (fun a b => a.timestamp ≤ b.timestamp)) :
    l.filter (fun e => fromT ≤ e.timestamp ∧ e.timestamp ≤ toT) =
      l.takeWhile (fun e => fromT ≤ e.timestamp ∧ e.timestamp ≤ toT) := by
  induction l with
  | nil => rfl
  | cons x xs ih =>
      obtain ⟨hx, htail⟩ := List.pairwise_cons.mp hsorted
      have hxlb : fromT ≤ x.timestamp := hlb x (List.mem_cons_self x xs)
      by_cases hto : x.timestamp ≤ toT
      · have hpx : (fromT ≤ x.timestamp ∧ x.timestamp ≤ toT) := ⟨hxlb, hto⟩
        simp only [List.filter_cons, List.takeWhile_cons, decide_eq_true_eq,
          if_pos hpx, hpx, decide_True, and_self]
        exact congrArg (x :: ·) (ih (fun y hy => hlb y (List.mem_cons_of_mem x hy)) htail)
      · have hall : ∀ y ∈ xs, ¬(fromT ≤ y.timestamp ∧ y.timestamp ≤ toT) := by
          intro y hy hcon
          exact hto (le_trans (hx y hy) hcon.2)
        have hnil : xs.filter (fun e => fromT ≤ e.timestamp ∧ e.timestamp ≤ toT) = [] := by
          rw [List.filter_eq_nil_iff]
          intro y hy
          simp only [decide_eq_true_eq]
          exact hall y hy
        simp only [List.filter_cons, List.takeWhile_cons, hto, hnil]
        simp

theorem chain_wf_takeWhile {H : Type} (hf : HashInput H → H)
    (p : AuditEntry H → Bool) (l : List (AuditEntry H)) (prev : Option H)
    (hwf : chain_wf hf prev l) : chain_wf hf prev (l.takeWhile p) := by
  induction l generalizing prev with
  | nil => trivial
  | cons x xs ih =>
      obtain ⟨h1, h2, h3⟩ := hwf
      by_cases hp : p x = true
      · rw [List.takeWhile_cons_of_pos hp]
        exact ⟨h1, h2, ih _ h3⟩
      · rw [List.takeWhile_cons_of_neg hp]
        trivial

theorem verify_loop_set_tampered {H : Type} [DecidableEq H]
    (hf : HashInput H → H) (hinj : Function.Injective hf)
    (l : List (AuditEntry H)) (prev : Option H) (i : Nat)
    (x e' : AuditEntry H) (hwf : chain_wf hf prev l) (hx : l[i]? = some x)
    (ht : tampered_entry x e') :
    verify_loop hf prev (l.set i e') = [e'.id] := by
  induction l generalizing prev i with
  | nil => simp at hx
  | cons y ys ih =>
      obtain ⟨h1, h2, h3⟩ := hwf
      cases i with
      | zero =>
          simp only [List.getElem?_cons_zero, Option.some_inj] at hx
          subst hx
          obtain ⟨hid, hact, hety, huid, haid, hhash, hprev, hdiff⟩ := ht
          have hne : e'.hash ≠ calculate_hash hf e' prev := by
            rw [hhash, h2]
            intro heq
            have hinp := hinj heq
            rcases hdiff with hd | hd | hd
            · exact hd (congrArg HashInput.details hinp).symm
            · exact hd (congrArg HashInput.entity_id hinp).symm
            · exact hd (congrArg HashInput.timestamp hinp).symm
          rw [List.set_cons_zero]
          simp only [verify_loop]
          rw [if_neg hne, hhash]
          simp [chain_wf_verify_loop hf ys (some y.hash) h3]
      | succ j =>
          rw [List.set_cons_succ]
          simp only [verify_loop]
          rw [if_pos h2]
          simpa using ih (some y.hash) j h3 (by simpa using hx)

/-- Claim C2 (counterexample): three entries are appended at times 0, 1, 2;
only the last entry's details are mutated out of band; the verification
over the range [1, 2] covers the mutated entry, yet `broken_links` also
reports entry 1 (whose expected hash is recomputed against an empty
previous hash because the range excludes the genesis entry), so the
response is not exactly the mutated entry's id. -/
theorem c2_tamper_detection_counterexample :
    ((1 : Int) ≤ c2_mutated.timestamp ∧ c2_mutated.timestamp ≤ 2) ∧
    (verify_chain hfree c2_tampered 1 2).broken_links ≠ [c2_mutated.id] ∧
    (verify_chain hfree c2_tampered 1 2).broken_links = [1, 2] ∧
    (verify_chain hfree c2_tampered 1 2).is_valid = false := by
  refine ⟨by decide, by decide, by decide, by decide⟩

/-- Claim C2 (amended): if exactly one persisted audit entry's details,
entity_id, or timestamp is mutated out of band (all other entries left
unchanged), then a verification whose time range covers all entries of the
log — in particular the genesis entry — reports exactly that entry's id,
and no other, in broken_links, with is_valid = false.  SHA-256 is assumed
collision-free (`Function.Injective hf`). -/
theorem c2_tamper_detection_amended {H : Type} [DecidableEq H]
    (hf : HashInput H → H) (hinj : Function.Injective hf)
    (reqs : List (CreateAuditRequest × Nat × Int)) (i : Nat)
    (x e' : AuditEntry H) (fromT toT : Int)
    (hx : (append_all hf [] reqs)[i]? = some x)
    (ht : tampered_entry x e')
    (hrange : ∀ e ∈ (append_all hf [] reqs).set i e',
      fromT ≤ e.timestamp ∧ e.timestamp ≤ toT) :
    (verify_chain hf ((append_all hf [] reqs).set i e') fromT toT).broken_links =
      [e'.id] ∧
    (verify_chain hf ((append_all hf [] reqs).set i e') fromT toT).is_valid =
      false := by
  have hwf : chain_wf hf none (append_all hf [] reqs) :=
    append_all_wf hf reqs [] trivial
  have hfilter :
      range_filter ((append_all hf [] reqs).set i e') fromT toT =
        (append_all hf [] reqs).set i e' := by
    rw [range_filter, List.filter_eq_self]
    simpa using hrange
  have hbroken :
      (verify_chain hf ((append_all hf [] reqs).set i e') fromT toT).broken_links =
        [e'.id] := by
    simp only [verify_chain, hfilter]
    exact verify_loop_set_tampered hf hinj _ none i x e' hwf hx ht
  refine ⟨hbroken, ?_⟩
  have hproj :
      (verify_chain hf ((append_all hf [] reqs).set i e') fromT toT).is_valid =
        ((verify_chain hf ((append_all hf [] reqs).set i e') fromT toT).broken_links).isEmpty :=
    rfl
  rw [hproj, hbroken]
  rfl

/-- Witness for the amended C2: the same mutation, verified over a range
that covers the whole log, reports exactly the mutated entry. -/
theorem c2_tamper_detection_amended_witness :
    Function.Injective hfree ∧
    c2_log[2]? = some (c2_log.getD 2 dummyEntry) ∧
    tampered_entry (c2_log.getD 2 dummyEntry) c2_mutated ∧
    (∀ e ∈ c2_log.set 2 c2_mutated,
      (0 : Int) ≤ e.timestamp ∧ e.timestamp ≤ 9) ∧
    (verify_chain hfree (c2_log.set 2 c2_mutated) 0 9).broken_links =
      [c2_mutated.id] ∧
    (verify_chain hfree (c2_log.set 2 c2_mutated) 0 9).is_valid = false :=
  ⟨hfree_injective, by decide, by decide, by decide,
    c2_tamper_detection_amended hfree hfree_injective c1_reqs 2
      (c2_log.getD 2 dummyEntry) c2_mutated 0 9 (by decide) (by decide)
      (by decide)⟩

/-- Claim C10: chain verification recomputes the expected hash of the
earliest entry inside the requested time range using an empty previous
hash.  For every untampered log (with non-decreasing append timestamps)
and every range whose earliest included entry has a non-null
previous_hash — i.e. the range excludes the genesis entry — that entry's
id is reported in broken_links and is_valid = false; ranges that contain
no entries, or whose earliest included entry is the genesis entry, verify
as valid. -/
theorem c10_range_excluding_genesis {H : Type} [DecidableEq H]
    (hf : HashInput H → H) (hinj : Function.Injective hf)
    (reqs : List (CreateAuditRequest × Nat × Int)) (fromT toT : Int)
    (hsorted : (append_all hf [] reqs).Pairwise
      (fun a b => a.timestamp ≤ b.timestamp)) :
    (∀ e, (range_filter (append_all hf [] reqs) fromT toT).head? = some e →
      e.previous_hash ≠ none →
      e.id ∈ (verify_chain hf (append_all hf [] reqs) fromT toT).broken_links ∧
      (verify_chain hf (append_all hf [] reqs) fromT toT).is_valid = false) ∧
    (range_filter (append_all hf [] reqs) fromT toT = [] →
      (verify_chain hf (append_all hf [] reqs) fromT toT).is_valid = true) ∧
    (∀ e, (range_filter (append_all hf [] reqs) fromT toT).head? = some e →
      e.previous_hash = none →
      (verify_chain hf (append_all hf [] reqs) fromT toT).is_valid = true) := by
  have hwf : chain_wf hf none (append_all hf [] reqs) :=
    append_all_wf hf reqs [] trivial
  have hbl :
      (verify_chain hf (append_all hf [] reqs) fromT toT).broken_links =
        verify_loop hf none (range_filter (append_all hf [] reqs) fromT toT) :=
    rfl
  have hvalid :
      (verify_chain hf (append_all hf [] reqs) fromT toT).is_valid =
        ((verify_chain hf (append_all hf [] reqs) fromT toT).broken_links).isEmpty :=
    rfl
  refine ⟨?_, ?_, ?_⟩
  · intro e he hne
    cases hF : range_filter (append_all hf [] reqs) fromT toT with
    | nil => rw [hF] at he; simp at he
    | cons f rest =>
        rw [hF] at he
        obtain rfl : e = f := by simpa using he.symm
        have hmemL : e ∈ append_all hf [] reqs := by
          have : e ∈ range_filter (append_all hf [] reqs) fromT toT := by
            rw [hF]; exact List.mem_cons_self e rest
          exact List.mem_of_mem_filter this
        obtain ⟨p, hp⟩ := Option.ne_none_iff_exists'.mp hne
        have hhash := chain_wf_hash_of_mem hf _ none e hwf hmemL
        have hneq : e.hash ≠ calculate_hash hf e none := by
          rw [hhash, hp]
          intro heq
          have hinp := hinj heq
          have hprev := congrArg HashInput.prev hinp
          simp [hashInputOf] at hprev
        have hbrk :
            (verify_chain hf (append_all hf [] reqs) fromT toT).broken_links =
              e.id :: verify_loop hf (some e.hash) rest := by
          rw [hbl, hF]
          simp only [verify_loop]
          rw [if_neg hneq]
          rfl
        constructor
        · rw [hbrk]; exact List.mem_cons_self _ _
        · rw [hvalid, hbrk]; rfl
  · intro hF
    rw [hvalid, hbl, hF]
    rfl
  · intro e he hpnone
    cases hF : range_filter (append_all hf [] reqs) fromT toT with
    | nil => rw [hvalid, hbl, hF]; rfl
    | cons f rest =>
        rw [hF] at he
        obtain rfl : e = f := by simpa using he.symm
        have hmemF : e ∈ range_filter (append_all hf [] reqs) fromT toT := by
          rw [hF]; exact List.mem_cons_self e rest
        have hmemL : e ∈ append_all hf [] reqs := List.mem_of_mem_filter hmemF
        have hPe : fromT ≤ e.timestamp ∧ e.timestamp ≤ toT := by
          have := (List.mem_filter.mp hmemF).2
          exact of_decide_eq_true this
        have hheadL : (append_all hf [] reqs).head? = some e :=
          chain_wf_prev_none_head hf _ e hwf hmemL hpnone
        have hlb : ∀ x ∈ append_all hf [] reqs, fromT ≤ x.timestamp := by
          intro x hx
          cases hL : append_all hf [] reqs with
          | nil => rw [hL] at hx; simp at hx
          | cons l0 tail =>
              rw [hL] at hheadL hx hsorted
              simp only [List.head?_cons, Option.some_inj] at hheadL
              subst hheadL
              rcases List.mem_cons.mp hx with rfl | hx'
              · exact hPe.1
              · exact le_trans hPe.1
                  ((List.pairwise_cons.mp hsorted).1 x hx')
        have hTW := filter_eq_takeWhile_sorted (append_all hf [] reqs)
          fromT toT hlb hsorted
        have hwfF : chain_wf hf none
            (range_filter (append_all hf [] reqs) fromT toT) := by
          rw [range_filter, hTW]
          exact chain_wf_takeWhile hf _ _ none hwf
        rw [hvalid, hbl, chain_wf_verify_loop hf _ none hwfF]
        rfl

/-- Witness for C10: verifying the three-entry log over the range [1, 2]
flags its earliest in-range entry (id 1, whose previous_hash is non-null)
and is invalid; over [0, 9] (which starts at the genesis entry) it is
valid. -/
theorem c10_range_excluding_genesis_witness :
    Function.Injective hfree ∧
    (append_all hfree [] c1_reqs).Pairwise
      (fun a b => a.timestamp ≤ b.timestamp) ∧
    (range_filter (append_all hfree [] c1_reqs) 1 2).head? =
      some (c2_log.getD 1 dummyEntry) ∧
    (c2_log.getD 1 dummyEntry).previous_hash ≠ none ∧
    ((c2_log.getD 1 dummyEntry).id ∈
      (verify_chain hfree (append_all hfree [] c1_reqs) 1 2).broken_links ∧
      (verify_chain hfree (append_all hfree [] c1_reqs) 1 2).is_valid = false) :=
  ⟨hfree_injective, by decide, by decide, by decide,
    (c10_range_excluding_genesis hfree hfree_injective c1_reqs 1 2
      (by decide)).1 (c2_log.getD 1 dummyEntry) (by decide) (by decide)⟩

theorem mapGet_mapUpdate_self {α : Type} (m : List (Nat × α)) (k : Nat)
    (f : α → α) : mapGet (mapUpdate m k f) k = (mapGet m k).map f := by
  induction m with
  | nil => rfl
  | cons p rest ih =>
      by_cases hp : p.1 = k
      · simp [mapGet, mapUpdate, List.find?_cons_of_pos, hp]
      · have hp1 : (p.1 == k) = false := by simpa using hp
        simp only [mapUpdate, List.map_cons, hp1, Bool.false_eq_true,
          if_false]
        simp only [mapGet, List.find?_cons_of_neg, hp1] at ih ⊢
        rw [List.find?_cons_of_neg _ (by simpa using hp),
          List.find?_cons_of_neg _ (by simpa using hp)]
        exact ih

theorem mapUpdate_mapUpdate {α : Type} (m : List (Nat × α)) (k : Nat)
    (f g : α → α) :
    mapUpdate (mapUpdate m k f) k g = mapUpdate m k (fun x => g (f x)) := by
  unfold mapUpdate
  rw [List.map_map]
  congr 1
  funext p
  by_cases hp : p.1 = k
  · simp [Function.comp, hp]
  · simp [Function.comp, hp]

theorem mapGet_mapInsert_self {α : Type} (m : List (Nat × α)) (k : Nat)
    (v : α) : mapGet (mapInsert m k v) k = some v := by
  unfold mapInsert
  by_cases hs : (mapGet m k).isSome
  · rw [if_pos hs]
    induction m with
    | nil => simp [mapGet] at hs
    | cons p rest ih =>
        by_cases hp : p.1 = k
        · simp [mapGet, hp]
        · have hp1 : (p.1 == k) = false := by simpa using hp
          simp only [List.map_cons, hp1, Bool.false_eq_true, if_false]
          simp only [mapGet, List.find?_cons_of_neg, hp1] at hs ⊢
          rw [List.find?_cons_of_neg _ (by simpa using hp)] at hs ⊢
          exact ih hs
  · rw [if_neg hs]
    induction m with
    | nil => simp [mapGet]
    | cons p rest ih =>
        by_cases hp : p.1 = k
        · exfalso
          apply hs
          simp [mapGet, List.find?_cons_of_pos, hp]
        · have hp1 : (p.1 == k) = false := by simpa using hp
          simp only [mapGet, List.cons_append] at hs ⊢
          rw [List.find?_cons_of_neg _ (by simpa using hp)] at hs ⊢
          exact ih hs

theorem mapValues_mapInsert_fresh {α : Type} (m : List (Nat × α)) (k : Nat)
    (v : α) (hfresh : mapGet m k = none) :
    mapValues (mapInsert m k v) = mapValues m ++ [v] := by
  unfold mapInsert
  rw [if_neg (by simp [hfresh])]
  simp [mapValues]

theorem esc_count_create (s : WorkflowService) (wid sid eid : Nat)
    (now : Int) (hfresh : mapGet s.escalations eid = none) :
    esc_count (create_escalation s wid sid "Max retries exceeded" "high" eid now)
        wid sid =
      esc_count s wid sid + 1 := by
  unfold esc_count create_escalation
  simp only []
  rw [mapValues_mapInsert_fresh _ _ _ hfresh]
  simp [List.filter_append]

theorem terminal_can_transition_false (a b : WorkflowState)
    (h : a.is_terminal = true) : a.can_transition_to b = false := by
  cases a <;> simp [WorkflowState.is_terminal] at h <;> cases b <;> rfl

/-- Claim C3: once a campaign's state is terminal (Completed, Cancelled,
or Failed), no subsequent operation changes it: `update_status` (and so
`cancel`) fails on every requested target; task completion mutates the
task and then blocks forever on the tasks lock with the workflows store
untouched, so the progress recompute it would trigger never runs; and
whenever `update_status` returns success, the stored campaign's state is
exactly the requested (parsed) state. -/
theorem c3_terminal_freeze :
    (∀ (s : WorkflowService) (id : Nat) (w : StoredWorkflow)
        (status : String), mapGet s.workflows id = some w →
      w.state.is_terminal = true →
      (update_status s id status).toOption = none) ∧
    (∀ (s : WorkflowService) (id : Nat) (w : StoredWorkflow),
      mapGet s.workflows id = some w → w.state.is_terminal = true →
      (cancel_workflow s id).toOption = none) ∧
    (∀ (s : WorkflowService) (task_id : Nat) (result : Option String)
        (now : Int) (t : StoredTask), mapGet s.tasks task_id = some t →
      complete_task s task_id result now =
        .deadlocked { s with tasks := mapUpdate s.tasks task_id (fun _ =>
          { t with state := .Completed, completed_at := some now,
                   result := result }) }) ∧
    (∀ (s : WorkflowService) (id : Nat) (status : String)
        (s' : WorkflowService) (st : WorkflowState),
      update_status s id status = .ok (s', st) →
      WorkflowState.from_str status = some st ∧
      (mapGet s'.workflows id).map StoredWorkflow.state = some st) := by
  have hupd : ∀ (s : WorkflowService) (id : Nat) (w : StoredWorkflow)
      (status : String), mapGet s.workflows id = some w →
      w.state.is_terminal = true →
      (update_status s id status).toOption = none := by
    intro s id w status hw hterm
    unfold update_status
    cases hp : WorkflowState.from_str status with
    | none => rfl
    | some ns =>
        rw [hw]
        dsimp only
        rw [if_neg (by simp [terminal_can_transition_false w.state ns hterm])]
        rfl
  refine ⟨hupd, ?_, ?_, ?_⟩
  · intro s id w hw hterm
    exact hupd s id w "cancelled" hw hterm
  · intro s task_id result now t ht
    unfold complete_task
    rw [ht]
  · intro s id status s' st h
    unfold update_status at h
    cases hp : WorkflowState.from_str status with
    | none =>
        rw [hp] at h
        dsimp only at h
        exact absurd h (by simp)
    | some ns =>
        rw [hp] at h
        cases hw : mapGet s.workflows id with
        | none =>
            rw [hw] at h
            dsimp only at h
            exact absurd h (by simp)
        | some w =>
            rw [hw] at h
            dsimp only at h
            by_cases hc : w.state.can_transition_to ns = true
            · rw [if_pos hc] at h
              simp only [Except.ok.injEq, Prod.mk.injEq] at h
              obtain ⟨hs', hst⟩ := h
              subst hs'
              subst hst
              constructor
              · rfl
              · rw [mapGet_mapUpdate_self, hw]
                rfl
            · rw [if_neg hc] at h
              exact absurd h (by simp)

/-- Witness for C3 at a concrete Cancelled campaign: a status update back
to Active is refused, and completing the campaign's task reaches the
deadlock with the workflows store (hence the Cancelled state)
untouched. -/
theorem c3_terminal_freeze_witness :
    mapGet c3_term_svc.workflows 1 = some c3_term_wf ∧
    c3_term_wf.state.is_terminal = true ∧
    (update_status c3_term_svc 1 "active").toOption = none ∧
    (cancel_workflow c3_term_svc 1).toOption = none ∧
    mapGet c3_term_svc.tasks 10 = some c3_term_task ∧
    complete_task c3_term_svc 10 none 50 =
      .deadlocked
        { c3_term_svc with
          tasks := mapUpdate c3_term_svc.tasks 10 (fun _ =>
            { c3_term_task with state := .Completed,
                                completed_at := some 50,
                                result := none }) } :=
  ⟨by decide, by decide,
    c3_terminal_freeze.1 c3_term_svc 1 c3_term_wf "active" (by decide)
      (by decide),
    c3_terminal_freeze.2.1 c3_term_svc 1 c3_term_wf (by decide) (by decide),
    by decide,
    c3_terminal_freeze.2.2.1 c3_term_svc 10 none 50 c3_term_task (by decide)⟩

/-- Claim C4 (counterexample): cancelling the Active one-supplier campaign
sets the campaign to `Cancelled` but leaves its task in the non-terminal
state `Scheduled`: the subsequent task list does show a task still in a
non-terminal state. -/
theorem c4_cancel_tasks_counterexample :
    (mapGet c3_s1.workflows 1).map StoredWorkflow.state = some .Active ∧
    (cancel_workflow c3_s1 1).toOption = some (c3_s2, .Cancelled) ∧
    (mapGet c3_s2.tasks 10).map StoredTask.state = some .Scheduled ∧
    TaskState.is_terminal .Scheduled = false := by
  refine ⟨by decide, by decide, by decide, by decide⟩

/-- Claim C4 (amended): cancelling an Active campaign succeeds and sets the
campaign's state to Cancelled, but modifies no task and no escalation: all
task states are left exactly as they were. -/
theorem c4_cancel_amended (s : WorkflowService) (id : Nat)
    (w : StoredWorkflow) (hw : mapGet s.workflows id = some w)
    (hact : w.state = .Active) :
    (cancel_workflow s id).toOption.map (fun p =>
        (p.1.tasks, p.1.escalations,
          (mapGet p.1.workflows id).map StoredWorkflow.state, p.2)) =
      some (s.tasks, s.escalations, some .Cancelled, .Cancelled) := by
  unfold cancel_workflow update_status
  have hparse : WorkflowState.from_str "cancelled" = some .Cancelled := rfl
  rw [hparse, hw]
  simp only [hact, WorkflowState.can_transition_to, if_true]
  simp only [Except.toOption, Option.map_some']
  rw [mapGet_mapUpdate_self, hw]
  rfl

/-- Witness for the amended C4 at the concrete one-supplier campaign. -/
theorem c4_cancel_amended_witness :
    mapGet c3_s1.workflows 1 = some ((mapGet c3_s1.workflows 1).getD dummyWorkflow) ∧
    ((mapGet c3_s1.workflows 1).getD dummyWorkflow).state = .Active ∧
    (cancel_workflow c3_s1 1).toOption.map (fun p =>
        (p.1.tasks, p.1.escalations,
          (mapGet p.1.workflows 1).map StoredWorkflow.state, p.2)) =
      some (c3_s1.tasks, c3_s1.escalations, some .Cancelled, .Cancelled) :=
  ⟨by decide, by decide,
    c4_cancel_amended c3_s1 1 ((mapGet c3_s1.workflows 1).getD dummyWorkflow)
      (by decide) (by decide)⟩

/-- Claim C5 (counterexample): with the clock at 0, a creation request
whose deadline parses to the past instant −5 and whose supplier list is
empty succeeds, creating and storing an Active campaign — none of the
claimed validations exists. -/
theorem c5_validation_counterexample :
    c5_req.deadline = some (-5) ∧ c5_req.supplier_ids = [] ∧
    ((create_workflow svc0 c5_req 1 [] 0).toOption).map (fun p =>
        ((mapGet p.1.workflows 1).map StoredWorkflow.state, p.2)) =
      some (some .Active, 0) := by
  refine ⟨by decide, by decide, by decide⟩

/-- Claim C5 (amended): campaign creation fails only when the deadline
string fails to parse as RFC-3339; whenever the deadline parses, creation
succeeds — with no futurity, non-emptiness, or duplicate validation — and
stores an Active campaign carrying the requested supplier list verbatim. -/
theorem c5_validation_amended (s : WorkflowService)
    (request : CreateWorkflowRequest) (wid : Nat) (tids : List Nat)
    (now : Int) :
    (request.deadline = none →
      create_workflow s request wid tids now = .error "Invalid deadline format") ∧
    (∀ d, request.deadline = some d →
      ((create_workflow s request wid tids now).toOption).map (fun p =>
          (p.2, (mapGet p.1.workflows wid).map (fun w =>
            (w.state, w.suppliers, w.deadline, w.start_date)))) =
        some (request.supplier_ids.length,
          some (.Active, request.supplier_ids, d, now))) := by
  constructor
  · intro hnone
    unfold create_workflow
    rw [hnone]
  · intro d hd
    unfold create_workflow
    rw [hd]
    simp only [Except.toOption, Option.map_some']
    rw [mapGet_mapInsert_self]
    rfl

/-- Witness for the amended C5: the past-deadline, empty-supplier request
is accepted. -/
theorem c5_validation_amended_witness :
    c5_req.deadline = some (-5) ∧
    ((create_workflow svc0 c5_req 1 [] 0).toOption).map (fun p =>
        (p.2, (mapGet p.1.workflows 1).map (fun w =>
          (w.state, w.suppliers, w.deadline, w.start_date)))) =
      some (c5_req.supplier_ids.length,
        some (.Active, c5_req.supplier_ids, -5, 0)) :=
  ⟨by decide,
    (c5_validation_amended svc0 c5_req 1 [] 0).2 (-5) (by decide)⟩

/-- Claim C7 (code bug, evaluated at the failing input): the service's own
task state machine has no transition out of `Completed`, yet `retry_task`
on a Completed task with `retry_count 0 < max_retries 3` succeeds,
incrementing `retry_count` and re-entering `Scheduled`. -/
theorem c7_retry_completed_violation :
    c7_task.state = .Completed ∧
    TaskState.can_transition_to .Completed .Running = false ∧
    TaskState.can_transition_to .Completed .Scheduled = false ∧
    ((retry_task c7_svc 10 99 5).toOption).map (fun p =>
        ((mapGet p.1.tasks 10).map StoredTask.state, p.2.state,
          p.2.retry_count)) =
      some (some .Scheduled, .Scheduled, 1) := by
  refine ⟨by decide, by decide, by decide, by decide⟩

theorem fail_retry_cycle_lt (s : WorkflowService) (tid eid : Nat) (now : Int)
    (t : StoredTask) (ht : mapGet s.tasks tid = some t)
    (hlt : t.retry_count < t.max_retries) :
    fail_retry_cycle s tid eid now =
      { s with tasks := mapUpdate s.tasks tid (fun _ =>
          { t with retry_count := t.retry_count + 1, state := .Scheduled,
                   scheduled_at := some now, error := none }) } := by
  unfold fail_retry_cycle fail_task
  have h1 : mapGet (mapUpdate s.tasks tid (fun t0 =>
      { t0 with state := .Failed, error := some "task failed" })) tid =
      some { t with state := .Failed, error := some "task failed" } := by
    rw [mapGet_mapUpdate_self, ht]
    rfl
  simp only [retry_task, h1]
  rw [if_neg (not_le.mpr hlt)]
  simp only []
  rw [mapUpdate_mapUpdate]

theorem fail_retry_cycle_ge (s : WorkflowService) (tid eid : Nat) (now : Int)
    (t : StoredTask) (ht : mapGet s.tasks tid = some t)
    (hge : t.max_retries ≤ t.retry_count) :
    fail_retry_cycle s tid eid now =
      create_escalation
        { s with tasks := mapUpdate s.tasks tid (fun _ =>
            { t with state := .Exhausted, error := some "task failed" }) }
        t.workflow_id t.supplier_id "Max retries exceeded" "high" eid now := by
  unfold fail_retry_cycle fail_task
  have h1 : mapGet (mapUpdate s.tasks tid (fun t0 =>
      { t0 with state := .Failed, error := some "task failed" })) tid =
      some { t with state := .Failed, error := some "task failed" } := by
    rw [mapGet_mapUpdate_self, ht]
    rfl
  simp only [retry_task, h1]
  rw [if_pos hge]
  simp only []
  rw [mapUpdate_mapUpdate]

theorem create_escalation_tasks (s : WorkflowService) (a b : Nat)
    (r v : String) (i : Nat) (n : Int) :
    (create_escalation s a b r v i n).tasks = s.tasks := rfl

theorem esc_count_create_any (s : WorkflowService)
    (u : List (Nat × StoredTask)) (wid sid eid : Nat) (now : Int)
    (hfresh : mapGet s.escalations eid = none) :
    esc_count
        (create_escalation { s with tasks := u } wid sid
          "Max retries exceeded" "high" eid now) wid sid =
      esc_count s wid sid + 1 :=
  esc_count_create { s with tasks := u } wid sid eid now hfresh

theorem fail_retry_cycles_exhaust (tid : Nat) (now : Int)
    (eids : List Nat) : ∀ (s : WorkflowService) (t : StoredTask),
    mapGet s.tasks tid = some t →
    t.retry_count ≤ t.max_retries →
    t.retry_count + (eids.length : Int) = t.max_retries + 1 →
    (∀ eid ∈ eids, mapGet s.escalations eid = none) →
    (mapGet (fail_retry_cycles s tid now eids).tasks tid).map
        StoredTask.state = some .Exhausted ∧
    esc_count (fail_retry_cycles s tid now eids) t.workflow_id t.supplier_id =
      esc_count s t.workflow_id t.supplier_id + 1 := by
  induction eids with
  | nil =>
      intro s t ht hle heq hfresh
      exfalso
      simp only [List.length_nil, Nat.cast_zero, add_zero] at heq
      omega
  | cons e rest ih =>
      intro s t ht hle heq hfresh
      cases rest with
      | nil =>
          have hge : t.max_retries ≤ t.retry_count := by
            simp only [List.length_cons, List.length_nil] at heq
            push_cast at heq
            omega
          simp only [fail_retry_cycles]
          rw [fail_retry_cycle_ge s tid e now t ht hge]
          constructor
          · rw [create_escalation_tasks]
            dsimp only
            rw [mapGet_mapUpdate_self, ht]
            rfl
          · rw [esc_count_create_any s _ t.workflow_id t.supplier_id e now
              (hfresh e (List.mem_cons_self e []))]
      | cons e2 rest2 =>
          have hlt : t.retry_count < t.max_retries := by
            simp only [List.length_cons] at heq
            push_cast at heq
            omega
          simp only [fail_retry_cycles]
          rw [fail_retry_cycle_lt s tid e now t ht hlt]
          refine ih { s with tasks := mapUpdate s.tasks tid (fun _ =>
              { t with retry_count := t.retry_count + 1,
                       state := .Scheduled, scheduled_at := some now,
                       error := none }) }
            { t with retry_count := t.retry_count + 1, state := .Scheduled,
                     scheduled_at := some now, error := none }
            ?_ ?_ ?_ ?_
          · dsimp only
            rw [mapGet_mapUpdate_self, ht]
            rfl
          · show t.retry_count + 1 ≤ t.max_retries
            omega
          · show t.retry_count + 1 + ((e2 :: rest2).length : Int) =
              t.max_retries + 1
            simp only [List.length_cons] at heq ⊢
            push_cast at heq ⊢
            omega
          · exact fun eid hm => hfresh eid (List.mem_cons_of_mem e hm)

/-- Claim C6: `retry_task` on a task with retry_count < max_retries
increments retry_count, sets state to Scheduled, sets scheduled_at to the
current time, and clears the task's error (creating no escalation); on a
task with retry_count ≥ max_retries it sets state to Exhausted and creates
exactly one Escalation of severity high with reason
`Max retries exceeded` for that task's campaign and supplier — hence after
max_retries + 1 consecutive failure-then-retry cycles from a fresh task
the task is Exhausted and exactly one such escalation exists for its
supplier. -/
theorem c6_retry_escalation :
    (∀ (s : WorkflowService) (tid eid : Nat) (now : Int) (t : StoredTask),
      mapGet s.tasks tid = some t → t.retry_count < t.max_retries →
      (retry_task s tid eid now).toOption.map (fun p =>
          (p.2, mapGet p.1.tasks tid, p.1.escalations)) =
        some ({ t with retry_count := t.retry_count + 1,
                       state := .Scheduled, scheduled_at := some now,
                       error := none },
          some { t with retry_count := t.retry_count + 1,
                        state := .Scheduled, scheduled_at := some now,
                        error := none },
          s.escalations)) ∧
    (∀ (s : WorkflowService) (tid eid : Nat) (now : Int) (t : StoredTask),
      mapGet s.tasks tid = some t → t.max_retries ≤ t.retry_count →
      mapGet s.escalations eid = none →
      (retry_task s tid eid now).toOption.map (fun p =>
          (p.2.state, (mapGet p.1.tasks tid).map StoredTask.state,
            esc_count p.1 t.workflow_id t.supplier_id)) =
        some (.Exhausted, some .Exhausted,
          esc_count s t.workflow_id t.supplier_id + 1)) ∧
    (∀ (s : WorkflowService) (tid : Nat) (now : Int) (t : StoredTask)
        (eids : List Nat),
      mapGet s.tasks tid = some t → t.retry_count = 0 →
      0 ≤ t.max_retries →
      (eids.length : Int) = t.max_retries + 1 →
      (∀ eid ∈ eids, mapGet s.escalations eid = none) →
      esc_count s t.workflow_id t.supplier_id = 0 →
      (mapGet (fail_retry_cycles s tid now eids).tasks tid).map
          StoredTask.state = some .Exhausted ∧
      esc_count (fail_retry_cycles s tid now eids) t.workflow_id
          t.supplier_id = 1) := by
  refine ⟨?_, ?_, ?_⟩
  · intro s tid eid now t ht hlt
    simp only [retry_task, ht]
    rw [if_neg (not_le.mpr hlt)]
    simp only [Except.toOption, Option.map_some']
    rw [mapGet_mapUpdate_self, ht]
    rfl
  · intro s tid eid now t ht hge hfresh
    simp only [retry_task, ht]
    rw [if_pos hge]
    simp only [Except.toOption, Option.map_some']
    rw [create_escalation_tasks]
    dsimp only
    rw [mapGet_mapUpdate_self, ht]
    rw [esc_count_create_any s _ t.workflow_id t.supplier_id eid now hfresh]
    rfl
  · intro s tid now t eids ht h0 hmax hlen hfresh hcount
    have hle : t.retry_count ≤ t.max_retries := by
      rw [h0]
      exact hmax
    have heq : t.retry_count + (eids.length : Int) = t.max_retries + 1 := by
      rw [h0, hlen]
      ring
    have hres := fail_retry_cycles_exhaust tid now eids s t ht hle heq hfresh
    rw [hcount] at hres
    exact hres

/-- Witness for C6: a fresh task with max_retries = 2 is failed and
retried three times; it ends Exhausted with exactly one matching
escalation. -/
theorem c6_retry_escalation_witness :
    mapGet c6_svc.tasks 10 = some c6_task ∧
    c6_task.retry_count = 0 ∧
    (0 : Int) ≤ c6_task.max_retries ∧
    (([20, 21, 22].length : Int) = c6_task.max_retries + 1) ∧
    (∀ eid ∈ [20, 21, 22], mapGet c6_svc.escalations eid = none) ∧
    esc_count c6_svc 1 5 = 0 ∧
    ((mapGet (fail_retry_cycles c6_svc 10 7 [20, 21, 22]).tasks 10).map
        StoredTask.state = some .Exhausted ∧
      esc_count (fail_retry_cycles c6_svc 10 7 [20, 21, 22]) 1 5 = 1) :=
  ⟨by decide, by decide, by decide, by decide, by decide, by decide,
    c6_retry_escalation.2.2 c6_svc 10 7 c6_task [20, 21, 22] (by decide)
      (by decide) (by decide) (by decide) (by decide) (by decide)⟩

theorem parse_nat_of_data (s : String) (c : Char) (hdata : s.data = [c])
    (hc : c.isDigit = true) : parse_nat s = some (c.toNat - 48) := by
  unfold parse_nat
  rw [hdata]
  simp [hc]

theorem filterMap_weight_eq (l : List (Nat × Char))
    (h : ∀ p ∈ l, p.2.isDigit = true) :
    (l.filterMap (fun p =>
        if p.2.isDigit then some ((p.2.toNat - 48) * (p.1 + 1))
        else none)).sum =
      (l.map (fun p => (p.1 + 1) * spec_digit_val p.2)).sum := by
  induction l with
  | nil => rfl
  | cons p rest ih =>
      have hp := h p (List.mem_cons_self p rest)
      simp only [List.filterMap_cons, hp, if_true, List.map_cons,
        List.sum_cons]
      rw [ih (fun q hq => h q (List.mem_cons_of_mem p hq))]
      unfold spec_digit_val
      ring

theorem verify_checksum_iff_spec (norm g1 g2 g3 : String)
    (hsplit : split_on_char norm '-' = [g1, g2, g3])
    (h1 : g1.data.all Char.isDigit = true)
    (h2 : g2.data.all Char.isDigit = true) (h3len : g3.length = 1)
    (h3 : g3.data.all Char.isDigit = true) :
    verify_cas_checksum norm = true ↔
      spec_weighted_sum (g1 ++ g2) % 10 =
        spec_digit_val (g3.data.headD '0') := by
  obtain ⟨c, hc⟩ := List.length_eq_one.mp (show g3.data.length = 1 from h3len)
  have hcd : c.isDigit = true := by
    rw [hc] at h3
    simpa using h3
  unfold verify_cas_checksum
  rw [hsplit]
  dsimp only
  rw [parse_nat_of_data g3 c hc hcd]
  dsimp only
  have hall : ∀ p ∈ (g1 ++ g2).data.reverse.enum, p.2.isDigit = true := by
    intro p hp
    have hmem : p.2 ∈ (g1 ++ g2).data.reverse :=
      List.getElem?_mem (List.mem_enum_iff_getElem?.mp hp)
    rw [List.mem_reverse, String.data_append] at hmem
    rcases List.mem_append.mp hmem with hm | hm
    · exact List.all_eq_true.mp h1 _ hm
    · exact List.all_eq_true.mp h2 _ hm
  rw [filterMap_weight_eq _ hall]
  unfold spec_weighted_sum
  rw [hc]
  simp only [List.headD_cons, beq_iff_eq]
  unfold spec_digit_val
  exact Iff.rfl

theorem toNat_lt_128_of_isDigit (c : Char) (h : c.isDigit = true) :
    c.toNat < 128 := by
  unfold Char.isDigit at h
  simp only [Bool.and_eq_true, decide_eq_true_eq] at h
  have h2 : c.val.toNat ≤ (57 : UInt32).toNat := h.2
  have h57 : (57 : UInt32).toNat = 57 := rfl
  unfold Char.toNat
  omega

theorem char_utf8_len_of_ascii (c : Char) (h : c.toNat < 128) :
    char_utf8_len c = 1 := by
  unfold char_utf8_len
  rw [if_pos (by omega)]

theorem str_bytes_eq_length (s : String)
    (h : ∀ c ∈ s.data, c.toNat < 128) : str_bytes s = s.length := by
  unfold str_bytes
  have hmap : s.data.map char_utf8_len = s.data.map (fun _ => 1) := by
    apply List.map_congr_left
    intro c hc
    exact char_utf8_len_of_ascii c (h c hc)
  rw [hmap, List.map_const', List.sum_replicate, smul_eq_mul, mul_one]
  rfl

theorem seg_all_ascii (g : String) (h : g.data.all Char.isDigit = true) :
    ∀ c ∈ g.data, c.toNat < 128 := fun c hc =>
  toNat_lt_128_of_isDigit c (List.all_eq_true.mp h c hc)

theorem seg1_valid_iff (g : String) :
    seg1_valid Char.isDigit g = true ↔
      (2 ≤ g.length ∧ g.length ≤ 7 ∧ g.data.all Char.isDigit = true) := by
  unfold seg1_valid
  rw [Bool.and_eq_true, Bool.and_eq_true, decide_eq_true_eq,
    decide_eq_true_eq, and_assoc]
  constructor
  · rintro ⟨h1, h2, h3⟩
    rw [str_bytes_eq_length g (seg_all_ascii g h3)] at h1 h2
    exact ⟨h1, h2, h3⟩
  · rintro ⟨h1, h2, h3⟩
    rw [str_bytes_eq_length g (seg_all_ascii g h3)]
    exact ⟨h1, h2, h3⟩

theorem seg2_valid_iff (g : String) :
    seg2_valid Char.isDigit g = true ↔
      (g.length = 2 ∧ g.data.all Char.isDigit = true) := by
  unfold seg2_valid
  rw [Bool.and_eq_true, beq_iff_eq]
  constructor
  · rintro ⟨h1, h2⟩
    rw [str_bytes_eq_length g (seg_all_ascii g h2)] at h1
    exact ⟨h1, h2⟩
  · rintro ⟨h1, h2⟩
    rw [str_bytes_eq_length g (seg_all_ascii g h2)]
    exact ⟨h1, h2⟩

theorem seg3_valid_iff (g : String) :
    seg3_valid Char.isDigit g = true ↔
      (g.length = 1 ∧ g.data.all Char.isDigit = true) := by
  unfold seg3_valid
  rw [Bool.and_eq_true, beq_iff_eq]
  constructor
  · rintro ⟨h1, h2⟩
    rw [str_bytes_eq_length g (seg_all_ascii g h2)] at h1
    exact ⟨h1, h2⟩
  · rintro ⟨h1, h2⟩
    rw [str_bytes_eq_length g (seg_all_ascii g h2)]
    exact ⟨h1, h2⟩

/-- Unfolding `validate_cas` on an input whose normalization splits into
exactly three groups. -/
theorem validate_cas_split3 (isNum : Char → Bool) (s g1 g2 g3 : String)
    (h : split_on_char (normalize_cas isNum s) '-' = [g1, g2, g3]) :
    validate_cas isNum s =
      { is_valid := cas_format_valid isNum g1 g2 g3 &&
          (if cas_format_valid isNum g1 g2 g3 then
            verify_cas_checksum (normalize_cas isNum s)
           else false),
        format_valid := cas_format_valid isNum g1 g2 g3,
        checksum_valid :=
          if cas_format_valid isNum g1 g2 g3 then
            verify_cas_checksum (normalize_cas isNum s)
          else false,
        normalized := normalize_cas isNum s,
        errors := cas_errors isNum g1 g2 g3 (cas_format_valid isNum g1 g2 g3)
          (if cas_format_valid isNum g1 g2 g3 then
            verify_cas_checksum (normalize_cas isNum s)
           else false) } := by
  unfold validate_cas
  rw [h]

/-- The validation iff for the ASCII digit instance of the numeric
predicate: transferred to `rust_is_numeric` on ASCII inputs below. -/
theorem validate_cas_isDigit_iff (s : String) :
    (validate_cas Char.isDigit s).is_valid = true ↔ cas_spec_valid s := by
  unfold cas_spec_valid
  rcases hsplit : split_on_char (normalize_cas Char.isDigit s) '-' with
    _ | ⟨g1, _ | ⟨g2, _ | ⟨g3, _ | ⟨g4, rest⟩⟩⟩⟩
  · constructor
    · intro hv
      exfalso
      unfold validate_cas at hv
      rw [hsplit] at hv
      simp at hv
    · rintro ⟨a, b, c, habc, -⟩
      simp at habc
  · constructor
    · intro hv
      exfalso
      unfold validate_cas at hv
      rw [hsplit] at hv
      simp at hv
    · rintro ⟨a, b, c, habc, -⟩
      simp at habc
  · constructor
    · intro hv
      exfalso
      unfold validate_cas at hv
      rw [hsplit] at hv
      simp at hv
    · rintro ⟨a, b, c, habc, -⟩
      simp at habc
  · rw [validate_cas_split3 Char.isDigit s g1 g2 g3 hsplit]
    constructor
    · intro hv
      simp only [Bool.and_eq_true] at hv
      obtain ⟨hfv, hcv⟩ := hv
      rw [if_pos hfv] at hcv
      have hfv1 := hfv
      unfold cas_format_valid at hfv1
      rw [Bool.and_eq_true, Bool.and_eq_true] at hfv1
      obtain ⟨⟨hs1, hs2⟩, hs3⟩ := hfv1
      obtain ⟨h1a, h1b, h1c⟩ := (seg1_valid_iff g1).mp hs1
      obtain ⟨h2a, h2b⟩ := (seg2_valid_iff g2).mp hs2
      obtain ⟨h3a, h3b⟩ := (seg3_valid_iff g3).mp hs3
      refine ⟨g1, g2, g3, rfl, h1a, h1b, h1c, h2a, h2b, h3a, h3b, ?_⟩
      exact (verify_checksum_iff_spec (normalize_cas Char.isDigit s) g1 g2 g3
        hsplit h1c h2b h3a h3b).mp hcv
    · rintro ⟨a, b, c, habc, ha1, ha2, ha3, hb1, hb2, hc1, hc2, hsum⟩
      obtain ⟨rfl, rfl, rfl⟩ : g1 = a ∧ g2 = b ∧ g3 = c := by
        simpa using habc
      have hfv : cas_format_valid Char.isDigit g1 g2 g3 = true := by
        unfold cas_format_valid
        rw [Bool.and_eq_true, Bool.and_eq_true]
        exact ⟨⟨(seg1_valid_iff g1).mpr ⟨ha1, ha2, ha3⟩,
          (seg2_valid_iff g2).mpr ⟨hb1, hb2⟩⟩,
          (seg3_valid_iff g3).mpr ⟨hc1, hc2⟩⟩
      simp only [hfv, if_true, Bool.and_eq_true, true_and]
      exact (verify_checksum_iff_spec (normalize_cas Char.isDigit s) g1 g2 g3
        hsplit ha3 hb2 hc1 hc2).mpr hsum
  · constructor
    · intro hv
      exfalso
      unfold validate_cas at hv
      rw [hsplit] at hv
      simp at hv
    · rintro ⟨a, b, c, habc, -⟩
      simp at habc

theorem rust_is_numeric_ascii (c : Char) (h : c.toNat < 128) :
    rust_is_numeric c = c.isDigit := by
  unfold rust_is_numeric
  rw [decide_eq_false (by omega : ¬ (0x660 ≤ c.toNat)), Bool.false_and,
    Bool.or_false]

theorem all_congr_mem {α : Type} (p q : α → Bool) :
    ∀ xs : List α, (∀ x ∈ xs, p x = q x) → xs.all p = xs.all q := by
  intro xs
  induction xs with
  | nil =>
      intro _
      rfl
  | cons x rest ih =>
      intro h
      simp only [List.all_cons]
      rw [h x (List.mem_cons_self x rest),
        ih (fun y hy => h y (List.mem_cons_of_mem x hy))]

theorem filter_congr_mem {α : Type} (p q : α → Bool) :
    ∀ xs : List α, (∀ x ∈ xs, p x = q x) → xs.filter p = xs.filter q := by
  intro xs
  induction xs with
  | nil =>
      intro _
      rfl
  | cons x rest ih =>
      intro h
      simp only [List.filter_cons]
      rw [h x (List.mem_cons_self x rest),
        ih (fun y hy => h y (List.mem_cons_of_mem x hy))]

theorem normalize_rust_eq (s : String)
    (h : ∀ c ∈ s.data, c.toNat < 128) :
    normalize_cas rust_is_numeric s = normalize_cas Char.isDigit s := by
  unfold normalize_cas
  congr 1
  apply filter_congr_mem
  intro c hc
  rw [rust_is_numeric_ascii c (h c hc)]

theorem split_on_char_aux_chars (sep : Char) (cs : List Char) :
    ∀ (acc : List Char) (g : String), g ∈ split_on_char_aux sep cs acc →
      ∀ c ∈ g.data, c ∈ acc ∨ c ∈ cs := by
  induction cs with
  | nil =>
      intro acc g hg c hc
      unfold split_on_char_aux at hg
      rw [List.mem_singleton] at hg
      subst hg
      exact Or.inl (List.mem_reverse.mp hc)
  | cons d rest ih =>
      intro acc g hg c hc
      unfold split_on_char_aux at hg
      by_cases hd : d = sep
      · rw [if_pos hd] at hg
        rcases List.mem_cons.mp hg with h1 | h1
        · subst h1
          exact Or.inl (List.mem_reverse.mp hc)
        · rcases ih [] g h1 c hc with h2 | h2
          · exact absurd h2 (List.not_mem_nil c)
          · exact Or.inr (List.mem_cons_of_mem d h2)
      · rw [if_neg hd] at hg
        rcases ih (d :: acc) g hg c hc with h2 | h2
        · rcases List.mem_cons.mp h2 with h3 | h3
          · exact Or.inr (by rw [h3]; exact List.mem_cons_self d rest)
          · exact Or.inl h3
        · exact Or.inr (List.mem_cons_of_mem d h2)

theorem split_chars (s : String) (sep : Char) (g : String)
    (hg : g ∈ split_on_char s sep) : ∀ c ∈ g.data, c ∈ s.data := by
  intro c hc
  rcases split_on_char_aux_chars sep s.data [] g hg c hc with h | h
  · exact absurd h (List.not_mem_nil c)
  · exact h

theorem seg1_rust_eq (g : String) (h : ∀ c ∈ g.data, c.toNat < 128) :
    seg1_valid rust_is_numeric g = seg1_valid Char.isDigit g := by
  unfold seg1_valid
  congr 1
  exact all_congr_mem _ _ g.data (fun c hc => rust_is_numeric_ascii c (h c hc))

theorem seg2_rust_eq (g : String) (h : ∀ c ∈ g.data, c.toNat < 128) :
    seg2_valid rust_is_numeric g = seg2_valid Char.isDigit g := by
  unfold seg2_valid
  congr 1
  exact all_congr_mem _ _ g.data (fun c hc => rust_is_numeric_ascii c (h c hc))

theorem seg3_rust_eq (g : String) (h : ∀ c ∈ g.data, c.toNat < 128) :
    seg3_valid rust_is_numeric g = seg3_valid Char.isDigit g := by
  unfold seg3_valid
  congr 1
  exact all_congr_mem _ _ g.data (fun c hc => rust_is_numeric_ascii c (h c hc))

/-- On an all-ASCII input the concrete `char::is_numeric` instance and the
ASCII digit test validate identically: the only characters where the two
predicates differ are non-ASCII. -/
theorem validate_rust_eq_of_ascii (s : String) (h : all_ascii s = true) :
    validate_cas rust_is_numeric s = validate_cas Char.isDigit s := by
  have hmem : ∀ c ∈ s.data, c.toNat < 128 := by
    intro c hc
    exact of_decide_eq_true (List.all_eq_true.mp h c hc)
  have hnorm : normalize_cas rust_is_numeric s =
      normalize_cas Char.isDigit s := normalize_rust_eq s hmem
  have hnmem : ∀ c ∈ (normalize_cas Char.isDigit s).data, c.toNat < 128 := by
    intro c hc
    unfold normalize_cas at hc
    exact hmem c (List.mem_of_mem_filter hc)
  unfold validate_cas
  rw [hnorm]
  rcases hsplit : split_on_char (normalize_cas Char.isDigit s) '-' with
    _ | ⟨g1, _ | ⟨g2, _ | ⟨g3, _ | ⟨g4, rest⟩⟩⟩⟩
  · rfl
  · rfl
  · rfl
  · have hg1 : ∀ c ∈ g1.data, c.toNat < 128 := by
      intro c hc
      refine hnmem c (split_chars _ '-' g1 ?_ c hc)
      rw [hsplit]
      simp
    have hg2 : ∀ c ∈ g2.data, c.toNat < 128 := by
      intro c hc
      refine hnmem c (split_chars _ '-' g2 ?_ c hc)
      rw [hsplit]
      simp
    have hg3 : ∀ c ∈ g3.data, c.toNat < 128 := by
      intro c hc
      refine hnmem c (split_chars _ '-' g3 ?_ c hc)
      rw [hsplit]
      simp
    have hfmt : cas_format_valid rust_is_numeric g1 g2 g3 =
        cas_format_valid Char.isDigit g1 g2 g3 := by
      unfold cas_format_valid
      rw [seg1_rust_eq g1 hg1, seg2_rust_eq g2 hg2, seg3_rust_eq g3 hg3]
    have herr : ∀ fv cv, cas_errors rust_is_numeric g1 g2 g3 fv cv =
        cas_errors Char.isDigit g1 g2 g3 fv cv := by
      intro fv cv
      unfold cas_errors
      rw [seg1_rust_eq g1 hg1, seg2_rust_eq g2 hg2, seg3_rust_eq g3 hg3]
    dsimp only
    rw [hfmt, herr]
  · rfl

/-- Claim C8 (counterexample): on the non-ASCII input "7٣-45-1" — where
'٣' is the Arabic-Indic digit three U+0663, numeric for
`char::is_numeric` and hence kept by `normalize_cas`, yet not an ASCII
digit and hence skipped by the `to_digit(10)` filter of the checksum —
`validate_cas` returns `is_valid = true` although the claimed property
fails: the claim's normalization strips '٣', leaving a first group "7"
that is shorter than two characters. -/
theorem c8_cas_validation_counterexample :
    (validate_cas rust_is_numeric "7٣-45-1").is_valid = true ∧
    rust_is_numeric '٣' = true ∧ ('٣').isDigit = false ∧
    ¬ cas_spec_valid "7٣-45-1" := by
  refine ⟨by decide, by decide, by decide, ?_⟩
  rintro ⟨g1, g2, g3, hsplit, h2, -⟩
  have hs : split_on_char (normalize_cas Char.isDigit "7٣-45-1") '-' =
      ["7", "45", "1"] := by decide
  rw [hs] at hsplit
  obtain ⟨hg1, hg2, hg3⟩ : "7" = g1 ∧ "45" = g2 ∧ "1" = g3 := by
    simpa using hsplit
  rw [← hg1] at h2
  exact absurd h2 (by decide)

/-- Claim C8 (amended): restricted to all-ASCII inputs — on which
`char::is_numeric` coincides with the ASCII digit test — CAS validation
returns is_valid = true iff the normalized input consists of three
dash-separated all-digit groups of sizes 2–7, 2, and 1, and the sum of
the digits of the first two groups, each weighted by its position counted
from the right starting at 1, is congruent mod 10 to the single check
digit; the six example inputs behave as stated. -/
theorem c8_cas_validation_amended :
    (∀ s : String, all_ascii s = true →
      ((validate_cas rust_is_numeric s).is_valid = true ↔
        cas_spec_valid s)) ∧
    (validate_cas rust_is_numeric "7732-18-5").is_valid = true ∧
    (validate_cas rust_is_numeric "7647-14-5").is_valid = true ∧
    (validate_cas rust_is_numeric "50-00-0").is_valid = true ∧
    (validate_cas rust_is_numeric "335-67-1").is_valid = true ∧
    (validate_cas rust_is_numeric "7732-18-6").checksum_valid = false ∧
    (validate_cas rust_is_numeric "123-45").format_valid = false := by
  refine ⟨?_, by decide, by decide, by decide, by decide, by decide,
    by decide⟩
  intro s hascii
  rw [validate_rust_eq_of_ascii s hascii]
  exact validate_cas_isDigit_iff s

/-- Witness for the amended C8 statement at a concrete ASCII input. -/
theorem c8_cas_validation_amended_witness :
    all_ascii "7732-18-5" = true ∧
      ((validate_cas rust_is_numeric "7732-18-5").is_valid = true ↔
        cas_spec_valid "7732-18-5") :=
  ⟨by decide, c8_cas_validation_amended.1 "7732-18-5" (by decide)⟩

/-- Claim C9 (counterexample): two rows merge under the normalized name
`acme`; the second row fills in the email, yet the merged supplier keeps
`is_complete = false` and `missing_fields = ["email"]`, which were
computed from the first row only — contradicting the claimed equivalence
for suppliers whose email was filled in by a later merged row. -/
theorem c9_completeness_counterexample :
    (extract SupplierExtractor.default [c9_row2, c9_row3]).suppliers.map
        (fun sup => (sup.name, sup.email, sup.is_complete,
          sup.missing_fields)) =
      [("Acme", some "acme@example.com", false, ["email"])] := by
  decide

theorem extract_step_member (cfg : SupplierExtractor) (st : ExtractState)
    (row : BomRow) :
    ∀ kv ∈ (extract_step cfg st row).supplier_map,
      (∃ kv0 ∈ st.supplier_map,
        kv0.2.name = kv.2.name ∧
        kv0.2.missing_fields = kv.2.missing_fields ∧
        kv0.2.is_complete = kv.2.is_complete) ∨
      (row.supplier_name = some kv.2.name ∧
        kv.2.missing_fields = missing_fields_of cfg row ∧
        kv.2.is_complete = (missing_fields_of cfg row).isEmpty) := by
  intro kv hkv
  unfold extract_step at hkv
  cases hname : row.supplier_name with
  | none =>
      rw [hname] at hkv
      dsimp only at hkv
      exact Or.inl ⟨kv, hkv, rfl, rfl, rfl⟩
  | some name =>
      rw [hname] at hkv
      dsimp only at hkv
      by_cases hempty : name.data.isEmpty = true
      · rw [if_pos hempty] at hkv
        exact Or.inl ⟨kv, hkv, rfl, rfl, rfl⟩
      · rw [if_neg hempty] at hkv
        cases hget : smapGet st.supplier_map (normalize_supplier_name name) with
        | some existing =>
            rw [hget] at hkv
            dsimp only at hkv
            unfold smapUpdate at hkv
            obtain ⟨p, hp, hpe⟩ := List.mem_map.mp hkv
            by_cases hpk : (p.1 == normalize_supplier_name name) = true
            · rw [if_pos hpk] at hpe
              unfold smapGet at hget
              cases hf : st.supplier_map.find?
                  (fun q => q.1 == normalize_supplier_name name) with
              | none =>
                  rw [hf] at hget
                  simp at hget
              | some q =>
                  rw [hf] at hget
                  simp only [Option.map_some', Option.some_inj] at hget
                  have hqmem : q ∈ st.supplier_map :=
                    List.mem_of_find?_eq_some hf
                  refine Or.inl ⟨q, hqmem, ?_, ?_, ?_⟩ <;>
                    rw [hget, ← hpe]
            · rw [if_neg hpk] at hpe
              rw [hpe] at hp
              exact Or.inl ⟨kv, hp, rfl, rfl, rfl⟩
        | none =>
            rw [hget] at hkv
            dsimp only at hkv
            rcases List.mem_append.mp hkv with h | h
            · exact Or.inl ⟨kv, h, rfl, rfl, rfl⟩
            · have hkv2 : kv =
                  (normalize_supplier_name name,
                    { id := row.row_number, name := name,
                      email := row.supplier_email,
                      contact_person := row.contact_person,
                      components := (extract_component row).toList,
                      source_rows := [row.row_number],
                      is_complete := (missing_fields_of cfg row).isEmpty,
                      missing_fields := missing_fields_of cfg row }) := by
                simpa using h
              rw [hkv2]
              exact Or.inr ⟨rfl, rfl, rfl⟩

theorem extract_fold_inv (cfg : SupplierExtractor) (rows : List BomRow) :
    ∀ (st : ExtractState) (kv : String × ExtractedSupplier),
      kv ∈ (rows.foldl (extract_step cfg) st).supplier_map →
      (∃ kv0 ∈ st.supplier_map,
        kv0.2.name = kv.2.name ∧
        kv0.2.missing_fields = kv.2.missing_fields ∧
        kv0.2.is_complete = kv.2.is_complete) ∨
      (∃ row ∈ rows, row.supplier_name = some kv.2.name ∧
        kv.2.missing_fields = missing_fields_of cfg row ∧
        kv.2.is_complete = (missing_fields_of cfg row).isEmpty) := by
  induction rows with
  | nil =>
      intro st kv hkv
      exact Or.inl ⟨kv, hkv, rfl, rfl, rfl⟩
  | cons row rest ih =>
      intro st kv hkv
      simp only [List.foldl_cons] at hkv
      rcases ih (extract_step cfg st row) kv hkv with
        ⟨kv0, hkv0, hn, hm, hc⟩ | ⟨r, hr, hprops⟩
      · rcases extract_step_member cfg st row kv0 hkv0 with
          ⟨kv1, hkv1, hn1, hm1, hc1⟩ | ⟨ha, hb, hcc⟩
        · exact Or.inl ⟨kv1, hkv1, hn1.trans hn, hm1.trans hm, hc1.trans hc⟩
        · refine Or.inr ⟨row, List.mem_cons_self row rest, ?_, ?_, ?_⟩
          · exact ha.trans (congrArg some hn)
          · exact hm.symm.trans hb
          · exact hc.symm.trans hcc
      · exact Or.inr ⟨r, List.mem_cons_of_mem row hr, hprops⟩

/-- Claim C9 (amended): for every supplier in an extraction result,
`is_complete` and `missing_fields` are those computed from the single row
that created the supplier (the first row merged under its normalized
name): some source row names the supplier (with the retained original
spelling), `missing_fields` equals exactly the required fields missing on
that row, and `is_complete` is true iff that list is empty.  Fills of
email or contact_person by later merged rows do not update these flags. -/
theorem c9_completeness_amended (cfg : SupplierExtractor)
    (rows : List BomRow) (sup : ExtractedSupplier)
    (hsup : sup ∈ (extract cfg rows).suppliers) :
    rows.any (fun row =>
      (row.supplier_name == some sup.name) &&
      (sup.missing_fields == missing_fields_of cfg row) &&
      (sup.is_complete == (missing_fields_of cfg row).isEmpty)) = true := by
  unfold extract at hsup
  dsimp only at hsup
  obtain ⟨kv, hkv, hkv2⟩ := List.mem_map.mp hsup
  rcases extract_fold_inv cfg rows ⟨[], [], 0⟩ kv hkv with
    ⟨kv0, h0, -⟩ | ⟨row, hr, ha, hb, hc⟩
  · simp at h0
  · rw [List.any_eq_true]
    refine ⟨row, hr, ?_⟩
    rw [← hkv2]
    simp [ha, hb, hc]

/-- Witness for the amended C9 at the two-row merge scenario. -/
theorem c9_completeness_amended_witness :
    ((extract SupplierExtractor.default [c9_row2, c9_row3]).suppliers.headD
        dummySupplier) ∈
      (extract SupplierExtractor.default [c9_row2, c9_row3]).suppliers ∧
    [c9_row2, c9_row3].any (fun row =>
      (row.supplier_name == some
        ((extract SupplierExtractor.default
          [c9_row2, c9_row3]).suppliers.headD dummySupplier).name) &&
      (((extract SupplierExtractor.default
          [c9_row2, c9_row3]).suppliers.headD dummySupplier).missing_fields ==
        missing_fields_of SupplierExtractor.default row) &&
      (((extract SupplierExtractor.default
          [c9_row2, c9_row3]).suppliers.headD dummySupplier).is_complete ==
        (missing_fields_of SupplierExtractor.default row).isEmpty)) = true :=
  ⟨by decide,
    c9_completeness_amended SupplierExtractor.default [c9_row2, c9_row3]
      ((extract SupplierExtractor.default [c9_row2, c9_row3]).suppliers.headD
        dummySupplier) (by decide)⟩
